import Mathlib

/-!
# Token verification and account migration: a shallow embedding

Lean model of the Go packages `auth` (bearer-token verification and the HTTP
middleware) and `migration` (legacy-token exchange, target-account
provisioning, the in-memory migration ledger and its HTTP handlers).

Conventions of the embedding.

* Go `string` is `String`; functions that look inside a string
  (`strings.Split`, `strings.TrimPrefix`, base64 decoding) work on its
  character list.
* A Go `(value, error)` result is `Except String value`, the string being the
  text of `err.Error()`; `fmt.Errorf("ctx: %w", err)` is `"ctx: " ++ e`.
* Everything outside the process (the legacy provider SDK, HTTP round trips,
  JSON decoding of response bodies, the JWT library) is a field of a `World`
  record on the migration path and of an `AuthWorld` record on the query path:
  one record describes what the outside answers during one call.
* `time.Now()` is reading number `clockReads` of a clock `clock : Nat → Time`;
  every reading increments the counter kept in the service state.
* Outbound calls are appended to a trace kept in the state, oldest first.
-/

namespace Spec2Proof

/-! ## JSON values -/

/-- A decoded JSON value, as `encoding/json` stores one in an `interface{}`:
`nil`, `bool`, `float64`, `string`, `[]interface{}` or
`map[string]interface{}`. A finite `float64` is a rational number. -/
inductive JSONValue where
  | null : JSONValue
  | bool (b : Bool) : JSONValue
  | num (q : ℚ) : JSONValue
  | str (s : String) : JSONValue
  | arr (items : List JSONValue) : JSONValue
  | obj (fields : List (String × JSONValue)) : JSONValue

/-! ## Time -/

/-- A `time.Time` instant, in nanoseconds since the Unix epoch. -/
abbrev Time := Nat

/-- `t.Unix()`: whole seconds since the epoch. -/
def Time.Unix (t : Time) : Int := ((t / 1000000000 : Nat) : Int)

/-! ## Package migration: data model -/

/-- `MigratedPassageUser` (passage_validator.go). -/
structure MigratedPassageUser where
  ID : String
  Email : String
  Phone : String
  EmailVerified : Bool
  PhoneVerified : Bool
  deriving DecidableEq, Repr

/-- `Auth0User` (auth0_issuer.go). -/
structure Auth0User where
  UserID : String
  Email : String
  EmailVerified : Bool
  deriving DecidableEq, Repr

/-- `TokenResponse` (auth0_issuer.go). -/
structure TokenResponse where
  AccessToken : String
  IDToken : String
  TokenType : String
  ExpiresIn : Int
  deriving DecidableEq, Repr

/-- `MigrationRecord` (token_exchange.go). -/
structure MigrationRecord where
  PassageUserID : String
  Auth0UserID : String
  Email : String
  MigratedAt : Time
  LastExchange : Time
  deriving DecidableEq, Repr

/-- `ExchangeResult` (token_exchange.go). -/
structure ExchangeResult where
  Auth0UserID : String
  Email : String
  AccessToken : String
  IDToken : String
  ExpiresIn : Int
  IsNewMigration : Bool
  deriving DecidableEq, Repr

/-- `Auth0Issuer` (auth0_issuer.go), without its HTTP client. -/
structure Auth0Issuer where
  domain : String
  clientID : String
  clientSecret : String
  audience : String
  connection : String
  deriving DecidableEq, Repr

/-- A value of a request payload before `json.Marshal`. -/
inductive PayloadValue where
  | str (s : String) : PayloadValue
  | bool (b : Bool) : PayloadValue
  deriving DecidableEq, Repr

/-- An outbound HTTP request: method, URL, the two headers the code sets and
the payload that is marshalled into the body. -/
structure HTTPRequest where
  Method : String
  URL : String
  Authorization : String
  ContentType : String
  Payload : List (String × PayloadValue)
  deriving DecidableEq, Repr

/-- The parts of an HTTP response the code reads. -/
structure HTTPResponse where
  StatusCode : Nat
  Status : String
  Body : String
  deriving DecidableEq, Repr

/-- An outbound call, as recorded in the trace. -/
inductive Call where
  | ValidateJWT (token : String) : Call
  | UserGet (userID : String) : Call
  | GetManagementToken : Call
  | FindOrCreateUser (mgmtToken email : String) (emailVerified : Bool) : Call
  | Do (req : HTTPRequest) : Call
  deriving DecidableEq, Repr

/-- What the outside answers during one call of the service.

* `ValidateJWT`, `UserGet`: the legacy provider SDK (`client.Auth.ValidateJWT`,
  `client.User.Get`); of the user the SDK returns, the five fields the code
  reads;
* `Do`: `http.NewRequest` followed by `httpClient.Do` (both errors are
  returned unchanged by the callers);
* `decodeTokenResponse`, `decodeUsers`, `decodeUser`: `encoding/json` applied
  to a response body. -/
structure World where
  ValidateJWT : String → Except String String
  UserGet : String → Except String MigratedPassageUser
  Do : HTTPRequest → Except String HTTPResponse
  decodeTokenResponse : String → Except String TokenResponse
  decodeUsers : String → Except String (List Auth0User)
  decodeUser : String → Except String Auth0User

/-- The Go map `map[string]*MigrationRecord` as an association list. The
records are only ever reached through the map and every field but
`LastExchange` is written once, so a record value stands for the pointer. -/
abbrev MigrationCache := List (String × MigrationRecord)

/-- `m[key]`: the record stored under `key`, if any. -/
def MigrationCache.lookup : MigrationCache → String → Option MigrationRecord
  | [], _ => none
  | (k, v) :: rest, key => if k = key then some v else MigrationCache.lookup rest key

/-- `m[key] = v`: replace the entry of `key`, or add one. -/
def MigrationCache.store : MigrationCache → String → MigrationRecord → MigrationCache
  | [], key, v => [(key, v)]
  | (k, v0) :: rest, key, v =>
    if k = key then (key, v) :: rest else (k, v0) :: MigrationCache.store rest key v

/-- `TokenExchangeService` (token_exchange.go) together with the two
instruments of the embedding: the number of clock readings made so far and the
trace of outbound calls. -/
structure TokenExchangeService where
  auth0Issuer : Auth0Issuer
  migrationCache : MigrationCache
  clockReads : Nat
  trace : List Call

/-- `NewTokenExchangeService`: an empty ledger. -/
def NewTokenExchangeService (issuer : Auth0Issuer) : TokenExchangeService :=
  { auth0Issuer := issuer, migrationCache := [], clockReads := 0, trace := [] }

/-- `time.Now()`. -/
def timeNow (clock : Nat → Time) (s : TokenExchangeService) : Time × TokenExchangeService :=
  (clock s.clockReads, { s with clockReads := s.clockReads + 1 })

/-- Append a call to the trace. -/
def record (s : TokenExchangeService) (c : Call) : TokenExchangeService :=
  { s with trace := s.trace ++ [c] }

/-! ## passage_validator.go -/

/-- `PassageValidator.ValidateToken`. -/
def ValidateToken (w : World) (s : TokenExchangeService) (token : String) :
    Except String MigratedPassageUser × TokenExchangeService :=
  let s1 := record s (Call.ValidateJWT token)
  match w.ValidateJWT token with
  | .error e => (.error ("invalid passage token: " ++ e), s1)
  | .ok userID =>
    let s2 := record s1 (Call.UserGet userID)
    match w.UserGet userID with
    | .error e => (.error ("failed to get user details: " ++ e), s2)
    | .ok user =>
      (.ok { ID := user.ID, Email := user.Email, Phone := user.Phone,
             EmailVerified := user.EmailVerified,
             PhoneVerified := user.PhoneVerified }, s2)

/-! ## auth0_issuer.go -/

/-- `Auth0Issuer.requestToken`. -/
def requestToken (w : World) (s : TokenExchangeService)
    (payload : List (String × PayloadValue)) :
    Except String TokenResponse × TokenExchangeService :=
  let req : HTTPRequest :=
    { Method := "POST", URL := "https://" ++ s.auth0Issuer.domain ++ "/oauth/token",
      Authorization := "", ContentType := "application/json", Payload := payload }
  let s1 := record s (Call.Do req)
  match w.Do req with
  | .error e => (.error e, s1)
  | .ok resp =>
    if resp.StatusCode ≠ 200 then
      (.error ("token request failed: " ++ resp.Status ++ " - " ++ resp.Body), s1)
    else
      match w.decodeTokenResponse resp.Body with
      | .error e => (.error e, s1)
      | .ok tokenResp => (.ok tokenResp, s1)

/-- `Auth0Issuer.GetManagementToken`. -/
def GetManagementToken (w : World) (s : TokenExchangeService) :
    Except String String × TokenExchangeService :=
  let s0 := record s Call.GetManagementToken
  let payload : List (String × PayloadValue) :=
    [("grant_type", .str "client_credentials"),
     ("client_id", .str s0.auth0Issuer.clientID),
     ("client_secret", .str s0.auth0Issuer.clientSecret),
     ("audience", .str ("https://" ++ s0.auth0Issuer.domain ++ "/api/v2/"))]
  match requestToken w s0 payload with
  | (.error e, s1) => (.error ("failed to get management token: " ++ e), s1)
  | (.ok tokenResp, s1) => (.ok tokenResp.AccessToken, s1)

/-- `Auth0Issuer.findUserByEmail`: `none` is the Go result `nil, nil`. -/
def findUserByEmail (w : World) (s : TokenExchangeService) (mgmtToken email : String) :
    Except String (Option Auth0User) × TokenExchangeService :=
  let req : HTTPRequest :=
    { Method := "GET",
      URL := "https://" ++ s.auth0Issuer.domain ++ "/api/v2/users-by-email?email=" ++ email,
      Authorization := "Bearer " ++ mgmtToken, ContentType := "application/json",
      Payload := [] }
  let s1 := record s (Call.Do req)
  match w.Do req with
  | .error e => (.error e, s1)
  | .ok resp =>
    if resp.StatusCode ≠ 200 then
      (.error ("failed to search user: " ++ resp.Status ++ " - " ++ resp.Body), s1)
    else
      match w.decodeUsers resp.Body with
      | .error e => (.error e, s1)
      | .ok users =>
        match users with
        | u :: _ => (.ok (some u), s1)
        | [] => (.ok none, s1)

/-- `generateRandomPassword`. -/
def generateRandomPassword (clock : Nat → Time) (s : TokenExchangeService) :
    String × TokenExchangeService :=
  let (now, s1) := timeNow clock s
  ("Migration-" ++ toString (Time.Unix now) ++ "-" ++ "SecureRandomString123!", s1)

/-- `Auth0Issuer.createUser`. -/
def createUser (clock : Nat → Time) (w : World) (s : TokenExchangeService)
    (mgmtToken email : String) (emailVerified : Bool) :
    Except String Auth0User × TokenExchangeService :=
  let (password, s1) := generateRandomPassword clock s
  let req : HTTPRequest :=
    { Method := "POST", URL := "https://" ++ s1.auth0Issuer.domain ++ "/api/v2/users",
      Authorization := "Bearer " ++ mgmtToken, ContentType := "application/json",
      Payload := [("email", .str email), ("email_verified", .bool emailVerified),
                  ("password", .str password), ("connection", .str s1.auth0Issuer.connection),
                  ("verify_email", .bool false)] }
  let s2 := record s1 (Call.Do req)
  match w.Do req with
  | .error e => (.error e, s2)
  | .ok resp =>
    if resp.StatusCode ≠ 201 then
      (.error ("failed to create user: " ++ resp.Status ++ " - " ++ resp.Body), s2)
    else
      match w.decodeUser resp.Body with
      | .error e => (.error e, s2)
      | .ok user => (.ok user, s2)

/-- `Auth0Issuer.FindOrCreateUser`. -/
def FindOrCreateUser (clock : Nat → Time) (w : World) (s : TokenExchangeService)
    (mgmtToken email : String) (emailVerified : Bool) :
    Except String Auth0User × TokenExchangeService :=
  let s0 := record s (Call.FindOrCreateUser mgmtToken email emailVerified)
  match findUserByEmail w s0 mgmtToken email with
  | (.ok (some user), s1) => (.ok user, s1)
  | (_, s1) => createUser clock w s1 mgmtToken email emailVerified

/-! ## token_exchange.go -/

/-- The local variables of `ExchangeToken` that are live after the read-locked
lookup: `migratedUser`, `identifier`, `migration` (`none` is the nil pointer)
and `isNewMigration`. -/
structure Pending where
  migratedUser : MigratedPassageUser
  identifier : String
  migration : Option MigrationRecord
  isNewMigration : Bool
  deriving DecidableEq, Repr

/-- `ExchangeToken`, lines 60-81: validation of the legacy token, the
identifier check and choice, and the lookup of the ledger under the read
lock. -/
def ExchangeToken.lookupStep (w : World) (s : TokenExchangeService) (passageToken : String) :
    Except String Pending × TokenExchangeService :=
  match ValidateToken w s passageToken with
  | (.error e, s1) => (.error ("invalid passage token: " ++ e), s1)
  | (.ok migratedUser, s1) =>
    if migratedUser.Email = "" ∧ migratedUser.Phone = "" then
      (.error "passage user has no email or phone", s1)
    else
      let identifier := if migratedUser.Email = "" then migratedUser.Phone else migratedUser.Email
      let migration := s1.migrationCache.lookup migratedUser.ID
      (.ok { migratedUser := migratedUser, identifier := identifier,
             migration := migration, isNewMigration := migration.isNone }, s1)

/-- `ExchangeToken`, lines 95-107: the update of the ledger under the write
lock. The test `migration == nil` is on the local variable read earlier. -/
def ExchangeToken.updateCache (clock : Nat → Time) (s : TokenExchangeService) (p : Pending)
    (auth0User : Auth0User) : TokenExchangeService :=
  match p.migration with
  | none =>
    let r1 := timeNow clock s
    let r2 := timeNow clock r1.2
    let migration : MigrationRecord :=
      { PassageUserID := p.migratedUser.ID, Auth0UserID := auth0User.UserID,
        Email := p.identifier, MigratedAt := r1.1, LastExchange := r2.1 }
    { r2.2 with migrationCache := r2.2.migrationCache.store p.migratedUser.ID migration }
  | some migration =>
    let r1 := timeNow clock s
    let updated : MigrationRecord := { migration with LastExchange := r1.1 }
    { r1.2 with migrationCache := r1.2.migrationCache.store p.migratedUser.ID updated }

/-- `ExchangeToken`, lines 83-117: the two calls to the target provider, the
update of the ledger under the write lock, and the result. -/
def ExchangeToken.updateStep (clock : Nat → Time) (w : World) (s : TokenExchangeService)
    (p : Pending) : Except String ExchangeResult × TokenExchangeService :=
  match GetManagementToken w s with
  | (.error e, s1) => (.error ("failed to get auth0 management token: " ++ e), s1)
  | (.ok mgmtToken, s1) =>
    match FindOrCreateUser clock w s1 mgmtToken p.identifier p.migratedUser.EmailVerified with
    | (.error e, s2) => (.error ("failed to create/find auth0 user: " ++ e), s2)
    | (.ok auth0User, s2) =>
      (.ok { Auth0UserID := auth0User.UserID, Email := p.identifier, AccessToken := "",
             IDToken := "", ExpiresIn := 0, IsNewMigration := p.isNewMigration },
       ExchangeToken.updateCache clock s2 p auth0User)

/-- `TokenExchangeService.ExchangeToken`, run without interruption. -/
def ExchangeToken (clock : Nat → Time) (w : World) (s : TokenExchangeService)
    (passageToken : String) : Except String ExchangeResult × TokenExchangeService :=
  match ExchangeToken.lookupStep w s passageToken with
  | (.error e, s1) => (.error e, s1)
  | (.ok p, s1) => ExchangeToken.updateStep clock w s1 p

/-- `TokenExchangeService.GetMigrationStatus`. -/
def GetMigrationStatus (s : TokenExchangeService) (passageUserID : String) :
    Option MigrationRecord :=
  s.migrationCache.lookup passageUserID

/-- The map returned by `GetMigrationStats`. -/
structure MigrationStats where
  total_migrated_users : Nat
  cache_size : Nat
  deriving DecidableEq, Repr

/-- `TokenExchangeService.GetMigrationStats`. -/
def GetMigrationStats (s : TokenExchangeService) : MigrationStats :=
  { total_migrated_users := s.migrationCache.length, cache_size := s.migrationCache.length }

/-- Number of ledger entries stored under `key`. -/
def MigrationCache.countKey (m : MigrationCache) (key : String) : Nat :=
  (m.filter (fun e => decide (e.1 = key))).length


/-- The ledger is the same in `s2` as in `s1` and the clock was not read
backwards. -/
def SameLedger (s1 s2 : TokenExchangeService) : Prop :=
  s2.migrationCache = s1.migrationCache ∧ s1.clockReads ≤ s2.clockReads

/-! ## Sample worlds -/

/-- A legacy provider and a target provider that answer every call: the
legacy token belongs to user `u-1` with the given email, and the search of the
target provider finds the account `found`. -/
def sampleWorld (email : String) (found : String) : World where
  ValidateJWT := fun _ => .ok "u-1"
  UserGet := fun userID =>
    .ok { ID := userID, Email := email, Phone := "", EmailVerified := true,
          PhoneVerified := false }
  Do := fun _ => .ok { StatusCode := 200, Status := "200 OK", Body := "" }
  decodeTokenResponse := fun _ =>
    .ok { AccessToken := "mgmt", IDToken := "", TokenType := "Bearer", ExpiresIn := 86400 }
  decodeUsers := fun _ => .ok [{ UserID := found, Email := email, EmailVerified := true }]
  decodeUser := fun _ => .error "unexpected end of JSON input"

/-- An issuer configuration for the examples. -/
def sampleIssuer : Auth0Issuer :=
  { domain := "t.auth0.com", clientID := "id", clientSecret := "secret",
    audience := "api", connection := "Username-Password-Authentication" }

/-- A clock that advances one second per reading. -/
def sampleClock (n : Nat) : Time := 1000000000 * (n + 5)

/-- The service right after start-up. -/
def sampleService : TokenExchangeService := NewTokenExchangeService sampleIssuer

/-- The identity `sampleWorld` validates. -/
def sampleUser (email : String) : MigratedPassageUser :=
  { ID := "u-1", Email := email, Phone := "", EmailVerified := true, PhoneVerified := false }

/-! ## Interleaved exchanges

`ExchangeToken` holds the ledger lock twice: the read lock around the lookup
(lines 77-79) and the write lock around the update (lines 96-107). Between
the two it calls the target provider without any lock. A call is therefore two
atomic steps, `ExchangeToken.lookupStep` and `ExchangeToken.updateStep`; the
provider calls are grouped with the second step, which is harmless because
they do not touch the ledger. -/

/-- Where one call of `ExchangeToken` stands. -/
inductive Thread where
  | start (w : World) (passageToken : String) : Thread
  | lookedUp (w : World) (p : Pending) : Thread
  | done (result : Except String ExchangeResult) : Thread

/-- The next atomic step of a call. -/
def Thread.step (clock : Nat → Time) (s : TokenExchangeService) :
    Thread → Thread × TokenExchangeService
  | .start w passageToken =>
    match ExchangeToken.lookupStep w s passageToken with
    | (.error e, s1) => (.done (.error e), s1)
    | (.ok p, s1) => (.lookedUp w p, s1)
  | .lookedUp w p =>
    match ExchangeToken.updateStep clock w s p with
    | (r, s1) => (.done r, s1)
  | .done r => (.done r, s)

/-- The result of a finished call. -/
def Thread.result : Thread → Option (Except String ExchangeResult)
  | .done r => some r
  | _ => none

/-- Two calls in flight on one service. -/
structure Concurrent where
  first : Thread
  second : Thread
  service : TokenExchangeService

/-- Run a schedule: `false` lets the first call take its next step, `true`
the second. -/
def runSchedule (clock : Nat → Time) : List Bool → Concurrent → Concurrent
  | [], c => c
  | false :: rest, c =>
    let r := c.first.step clock c.service
    runSchedule clock rest { first := r.1, second := c.second, service := r.2 }
  | true :: rest, c =>
    let r := c.second.step clock c.service
    runSchedule clock rest { first := c.first, second := r.1, service := r.2 }

/-- Two exchanges for `u-1` arriving at a freshly started service; the
provider answers the first with account `auth0|1` and the second with
`auth0|2`. -/
def sampleRace : Concurrent :=
  { first := .start (sampleWorld "a@x.io" "auth0|1") "t1",
    second := .start (sampleWorld "a@x.io" "auth0|2") "t2",
    service := sampleService }

/-! ## Runs of sequential exchanges -/

/-- Whether a traced call goes to the target provider. -/
def Call.isTargetProvider : Call → Bool
  | .ValidateJWT _ => false
  | .UserGet _ => false
  | .GetManagementToken => true
  | .FindOrCreateUser _ _ _ => true
  | .Do _ => true

/-- The service after a sequence of calls of `ExchangeToken`, each meeting
its own world. -/
def runExchanges (clock : Nat → Time) :
    List (World × String) → TokenExchangeService → TokenExchangeService
  | [], s => s
  | (w, passageToken) :: rest, s =>
    runExchanges clock rest (ExchangeToken clock w s passageToken).2

/-- The legacy ids of the calls of a run that succeeded, in order of call. -/
def migratedIDs (clock : Nat → Time) :
    List (World × String) → TokenExchangeService → List String
  | [], _ => []
  | (w, passageToken) :: rest, s =>
    match (ExchangeToken clock w s passageToken).1, (ValidateToken w s passageToken).1 with
    | .ok _, .ok user =>
      user.ID :: migratedIDs clock rest (ExchangeToken clock w s passageToken).2
    | _, _ => migratedIDs clock rest (ExchangeToken clock w s passageToken).2

/-! ## handler.go -/

/-- `ExchangeTokenRequest`. -/
structure ExchangeTokenRequest where
  PassageToken : String
  deriving DecidableEq, Repr

/-- `ExchangeTokenResponse`. -/
structure ExchangeTokenResponse where
  Success : Bool
  Auth0UserID : String
  Email : String
  IsNewMigration : Bool
  Message : String
  deriving DecidableEq, Repr

/-- An inbound request to a migration endpoint: method and body. -/
structure HandlerRequest where
  Method : String
  Body : String
  deriving DecidableEq, Repr

/-- What a migration handler wrote: the plain text of `http.Error`, or the
value passed to `respondJSON`. -/
inductive HandlerResponse where
  | plain (status : Nat) (body : String) : HandlerResponse
  | exchange (status : Nat) (data : ExchangeTokenResponse) : HandlerResponse
  | stats (status : Nat) (data : MigrationStats) : HandlerResponse
  deriving DecidableEq, Repr

/-- The status code of a response. -/
def HandlerResponse.status : HandlerResponse → Nat
  | .plain status _ => status
  | .exchange status _ => status
  | .stats status _ => status

/-- `strings.TrimPrefix`. -/
def TrimPrefix (s pre : String) : String :=
  if pre.toList.isPrefixOf s.toList then String.mk (s.toList.drop pre.toList.length) else s

/-- `Handler.HandleExchangeToken`. `decodeBody` is
`json.NewDecoder(r.Body).Decode(&req)`. -/
def HandleExchangeToken (clock : Nat → Time) (w : World)
    (decodeBody : String → Except String ExchangeTokenRequest)
    (s : TokenExchangeService) (r : HandlerRequest) :
    HandlerResponse × TokenExchangeService :=
  if r.Method ≠ "POST" then
    (.plain 405 "Method not allowed\n", s)
  else
    match decodeBody r.Body with
    | .error _ =>
      (.exchange 400 { Success := false, Auth0UserID := "", Email := "",
                       IsNewMigration := false, Message := "Invalid request body" }, s)
    | .ok req =>
      if req.PassageToken = "" then
        (.exchange 400 { Success := false, Auth0UserID := "", Email := "",
                         IsNewMigration := false, Message := "passage_token is required" }, s)
      else
        let passageToken := TrimPrefix req.PassageToken "Bearer "
        match ExchangeToken clock w s passageToken with
        | (.error e, s1) =>
          (.exchange 401 { Success := false, Auth0UserID := "", Email := "",
                           IsNewMigration := false, Message := e }, s1)
        | (.ok result, s1) =>
          (.exchange 200
            { Success := true, Auth0UserID := result.Auth0UserID, Email := result.Email,
              IsNewMigration := result.IsNewMigration,
              Message := "User migrated successfully. Use passwordless authentication to get Auth0 token." },
           s1)

/-- `Handler.HandleMigrationStats`. -/
def HandleMigrationStats (s : TokenExchangeService) (r : HandlerRequest) : HandlerResponse :=
  if r.Method ≠ "GET" then .plain 405 "Method not allowed\n"
  else .stats 200 (GetMigrationStats s)

/-- A body decoder for the examples: the body is taken as the token itself,
and the body `?` does not parse. -/
def sampleDecodeBody (body : String) : Except String ExchangeTokenRequest :=
  if body = "?" then .error "invalid character" else .ok { PassageToken := body }

/-! ## Package auth: data model -/

/-- `UserInfo` (auth0.go). -/
structure UserInfo where
  UserID : String
  Email : String
  deriving DecidableEq, Repr

/-- `Auth0Config` (auth0.go). -/
structure Auth0Config where
  Domain : String
  Audience : String
  deriving DecidableEq, Repr

/-- `JSONWebKey` (auth0.go). -/
structure JSONWebKey where
  Kty : String
  Kid : String
  Use : String
  N : String
  E : String
  X5c : List String
  deriving DecidableEq, Repr

/-- `JWKS` (auth0.go). -/
structure JWKS where
  Keys : List JSONWebKey
  deriving DecidableEq, Repr

/-- `rsa.PublicKey`: modulus (a `big.Int`) and exponent (an `int`). -/
structure PublicKey where
  N : Nat
  E : Int
  deriving DecidableEq, Repr

/-- `jwt.MapClaims` and the header of a token: a map from names to decoded
JSON values. -/
abbrev MapClaims := String → Option JSONValue

/-- The concrete type of `token.Method`. Only `RSA` is
`*jwt.SigningMethodRSA` (RS256, RS384, RS512); `RSAPSS` is the distinct type
of PS256, PS384 and PS512. -/
inductive SigningMethod where
  | RSA : SigningMethod
  | RSAPSS : SigningMethod
  | HMAC : SigningMethod
  | ECDSA : SigningMethod
  | Ed25519 : SigningMethod
  | none : SigningMethod
  deriving DecidableEq, Repr

/-- The parts of `jwt.Token` the code reads. `Claims` is `none` when the
claims are not a `jwt.MapClaims`. -/
structure Token where
  Method : SigningMethod
  Header : MapClaims
  Claims : Option MapClaims
  Valid : Bool

/-- What happens during one request on the query path, in order. -/
inductive AuthEvent where
  | validateToken (tokenString : String) : AuthEvent
  | fetchJWKS (url : String) : AuthEvent
  | convertKey (key : JSONWebKey) : AuthEvent
  | verifySignature (key : PublicKey) : AuthEvent
  | serveHTTP (user : UserInfo) : AuthEvent
  deriving DecidableEq, Repr

/-- Whether an event is a call of `validateToken`. -/
def AuthEvent.isValidateToken : AuthEvent → Bool
  | .validateToken _ => true
  | _ => false

/-- Whether an event happens inside `validateToken`. -/
def AuthEvent.isInner : AuthEvent → Bool
  | .fetchJWKS _ => true
  | .convertKey _ => true
  | .verifySignature _ => true
  | _ => false

/-- What the outside answers during one request on the query path.

* `parseUnverified`: the JWT library splitting and decoding the token string,
  before the key function is called;
* `verify`: the JWT library checking the signature against the key the key
  function returned, and validating the registered claims; it returns the token
  as `jwt.Parse` hands it back;
* `keyfuncError`: the text of the error `jwt.Parse` returns when the key
  function fails with the given text;
* `httpGet`, `decodeJWKS`: `http.Get` and the JSON decoding of the body;
* `sprintV`: `fmt` rendering a header value with `%v`;
* `int64Overflow`: the implementation-dependent result of converting to
  `int64` a `float64` outside its range;
* `now`: `time.Now()` at the expiry check. -/
structure AuthWorld where
  parseUnverified : String → Except String Token
  verify : Token → PublicKey → Except String Token
  keyfuncError : String → String
  httpGet : String → Except String String
  decodeJWKS : String → Except String JWKS
  sprintV : Option JSONValue → String
  int64Overflow : ℚ → Int
  now : Time

/-! ## auth0.go: keys -/

/-- `fetchJWKS`. -/
def fetchJWKS (w : AuthWorld) (domain : String) : Except String JWKS × List AuthEvent :=
  let url := "https://" ++ domain ++ "/.well-known/jwks.json"
  match w.httpGet url with
  | .error e => (.error e, [.fetchJWKS url])
  | .ok body =>
    match w.decodeJWKS body with
    | .error e => (.error e, [.fetchJWKS url])
    | .ok jwks => (.ok jwks, [.fetchJWKS url])

/-- The loop of `findKey` over `jwks.Keys`. -/
def findKeyIn : List JSONWebKey → String → Option JSONWebKey
  | [], _ => none
  | key :: rest, kid => if key.Kid = kid then some key else findKeyIn rest kid

/-- `findKey`: `none` is the nil pointer. -/
def findKey (jwks : JWKS) (kid : String) : Option JSONWebKey :=
  findKeyIn jwks.Keys kid

/-- The value of a character in the URL-safe base64 alphabet. -/
def base64urlValue (c : Char) : Option Nat :=
  if 'A' ≤ c ∧ c ≤ 'Z' then some (c.toNat - 'A'.toNat)
  else if 'a' ≤ c ∧ c ≤ 'z' then some (c.toNat - 'a'.toNat + 26)
  else if '0' ≤ c ∧ c ≤ '9' then some (c.toNat - '0'.toNat + 52)
  else if c = '-' then some 62
  else if c = '_' then some 63
  else none

/-- The text of a `base64.CorruptInputError`. -/
def corruptInputError (pos : Nat) : String :=
  "illegal base64 data at input byte " ++ toString pos

/-- The bytes of the last, incomplete quantum: two characters give one byte,
three give two, one alone is corrupt (reported one byte before the end). -/
def base64Tail (pos : Nat) (quantum : List Nat) (out : List Nat) : Except String (List Nat) :=
  match quantum with
  | [] => .ok out
  | [_] => .error (corruptInputError (pos - 1))
  | [a, b] => .ok (out ++ [(a * 4 + b / 16) % 256])
  | a :: b :: c :: _ => .ok (out ++ [(a * 4 + b / 16) % 256, (b * 16 + c / 4) % 256])

/-- The decoding loop of `base64.RawURLEncoding` (no padding, not strict):
`pos` is the byte offset in the input, `quantum` the values read for the
current group of four, `out` the bytes produced. Line feeds and carriage
returns are skipped; any other character outside the alphabet is corrupt. -/
def base64Loop : List Char → Nat → List Nat → List Nat → Except String (List Nat)
  | [], pos, quantum, out => base64Tail pos quantum out
  | ch :: rest, pos, quantum, out =>
    match base64urlValue ch with
    | some v =>
      match quantum with
      | [a, b, c] =>
        base64Loop rest (pos + 1) []
          (out ++ [(a * 4 + b / 16) % 256, (b * 16 + c / 4) % 256, (c * 64 + v) % 256])
      | _ => base64Loop rest (pos + 1) (quantum ++ [v]) out
    | none =>
      if ch = '\n' ∨ ch = '\r' then base64Loop rest (pos + ch.utf8Size) quantum out
      else .error (corruptInputError pos)

/-- `base64.RawURLEncoding.DecodeString`. -/
def DecodeString (s : String) : Except String (List Nat) :=
  base64Loop s.toList 0 [] []

/-- A Go `int` (64 bits) after an operation whose exact result is `x`. -/
def wrapInt64 (x : Int) : Int :=
  (x + 9223372036854775808) % 18446744073709551616 - 9223372036854775808

/-- `new(big.Int).SetBytes`: the big-endian unsigned value of the bytes. -/
def SetBytes (bytes : List Nat) : Nat :=
  bytes.foldl (fun acc b => acc * 256 + b) 0

/-- The loop `e = e<<8 + int(b)` of `convertKey`. -/
def exponentOfBytes (bytes : List Nat) : Int :=
  bytes.foldl (fun e b => wrapInt64 (wrapInt64 (e * 256) + (b : Int))) 0

/-- `convertKey`. -/
def convertKey (key : JSONWebKey) : Except String PublicKey :=
  match DecodeString key.N with
  | .error e => .error e
  | .ok nBytes =>
    match DecodeString key.E with
    | .error e => .error e
    | .ok eBytes => .ok { N := SetBytes nBytes, E := exponentOfBytes eBytes }

/-! ## auth0.go: validateToken -/

/-- The key function `validateToken` passes to `jwt.Parse` (lines 87-113). -/
def keyFunc (w : AuthWorld) (config : Auth0Config) (token : Token) :
    Except String PublicKey × List AuthEvent :=
  if token.Method ≠ SigningMethod.RSA then
    (.error ("unexpected signing method: " ++ w.sprintV (token.Header "alg")), [])
  else
    match token.Header "kid" with
    | some (.str kid) =>
      match fetchJWKS w config.Domain with
      | (.error e, ev) => (.error e, ev)
      | (.ok jwks, ev) =>
        match findKey jwks kid with
        | none => (.error "unable to find appropriate key", ev)
        | some key => (convertKey key, ev ++ [.convertKey key])
    | _ => (.error "kid header not found", [])

/-- The call protocol of `jwt.Parse`: the token string is decoded, the key
function is called on the decoded token, and only the key it returns is used
to verify the signature. -/
def jwtParse (w : AuthWorld) (tokenString : String)
    (keyfunc : Token → Except String PublicKey × List AuthEvent) :
    Except String Token × List AuthEvent :=
  match w.parseUnverified tokenString with
  | .error e => (.error e, [])
  | .ok token =>
    match keyfunc token with
    | (.error e, ev) => (.error (w.keyfuncError e), ev)
    | (.ok key, ev) =>
      match w.verify token key with
      | .error e => (.error e, ev ++ [.verifySignature key])
      | .ok verified => (.ok verified, ev ++ [.verifySignature key])

/-- The loop over `audArray` (lines 130-136). -/
def audienceFound (audience : String) : List JSONValue → Bool
  | [] => false
  | a :: rest =>
    match a with
    | .str audStr => if audStr = audience then true else audienceFound audience rest
    | _ => audienceFound audience rest

/-- The audience check of `validateToken` (lines 125-145). -/
def checkAudience (claims : MapClaims) (config : Auth0Config) : Except String Unit :=
  match claims "aud" with
  | some (.str aud) =>
    if aud ≠ config.Audience then .error "invalid audience" else .ok ()
  | some (.arr audArray) =>
    if audienceFound config.Audience audArray then .ok () else .error "invalid audience"
  | _ => .error "audience claim not found"

/-- The issuer check of `validateToken` (lines 147-152). -/
def checkIssuer (claims : MapClaims) (config : Auth0Config) : Except String Unit :=
  let expectedIssuer := "https://" ++ config.Domain ++ "/"
  match claims "iss" with
  | some (.str iss) => if iss ≠ expectedIssuer then .error "invalid issuer" else .ok ()
  | _ => .error "invalid issuer"

/-- The conversion `int64(exp)` of a `float64`: truncation toward zero when
the result fits. -/
def int64OfFloat64 (w : AuthWorld) (q : ℚ) : Int :=
  let t := Int.tdiv q.num (q.den : Int)
  if -9223372036854775808 ≤ t ∧ t ≤ 9223372036854775807 then t else w.int64Overflow q

/-- The expiry check of `validateToken` (lines 154-161). -/
def checkExpiry (w : AuthWorld) (claims : MapClaims) : Except String Unit :=
  match claims "exp" with
  | some (.num exp) =>
    if Time.Unix w.now > int64OfFloat64 w exp then .error "token expired" else .ok ()
  | _ => .error "expiration claim not found"

/-- The claims part of `validateToken` (lines 125-174). -/
def validateClaims (w : AuthWorld) (claims : MapClaims) (config : Auth0Config) :
    Except String UserInfo :=
  match checkAudience claims config with
  | .error e => .error e
  | .ok () =>
    match checkIssuer claims config with
    | .error e => .error e
    | .ok () =>
      match checkExpiry w claims with
      | .error e => .error e
      | .ok () =>
        match claims "sub" with
        | some (.str userID) =>
          let email := match claims "email" with
            | some (.str email) => email
            | _ => ""
          .ok { UserID := userID, Email := email }
        | _ => .error "sub claim not found"

/-- `validateToken`. -/
def validateToken (w : AuthWorld) (tokenString : String) (config : Auth0Config) :
    Except String UserInfo × List AuthEvent :=
  match jwtParse w tokenString (keyFunc w config) with
  | (.error e, ev) => (.error e, ev)
  | (.ok token, ev) =>
    match token.Claims, token.Valid with
    | some claims, true => (validateClaims w claims config, ev)
    | _, _ => (.error "invalid token claims", ev)

/-! ## auth0.go: Middleware -/

/-- One part after another of `strings.Split` on a one-character separator:
`cur` holds the characters of the part being read, last first. -/
def splitChars (sep : Char) : List Char → List Char → List String
  | [], cur => [String.mk cur.reverse]
  | c :: rest, cur =>
    if c = sep then String.mk cur.reverse :: splitChars sep rest []
    else splitChars sep rest (c :: cur)

/-- `strings.Split(s, sep)` for a separator of one character. -/
def Split (s : String) (sep : Char) : List String :=
  splitChars sep s.toList []

/-- The status and body of the response on the query path. -/
structure Reply where
  Status : Nat
  Body : String
  deriving DecidableEq, Repr

/-- The handler `Middleware(config)(next)` applied to a request whose
`Authorization` header is `authHeader` (`""` when the header is missing, as
`Header.Get` returns). `next` is the downstream handler, given the identity
bound to the context of its invocation. `http.Error` ends the body with a
line feed. -/
def Middleware (w : AuthWorld) (config : Auth0Config) (next : UserInfo → Reply)
    (authHeader : String) : Reply × List AuthEvent :=
  if authHeader = "" then
    ({ Status := 401, Body := "Authorization header required\n" }, [])
  else
    match Split authHeader ' ' with
    | [scheme, tokenString] =>
      if scheme ≠ "Bearer" then
        ({ Status := 401, Body := "Invalid authorization header format\n" }, [])
      else
        match validateToken w tokenString config with
        | (.error e, ev) =>
          ({ Status := 401, Body := "Invalid token: " ++ e ++ "\n" },
           AuthEvent.validateToken tokenString :: ev)
        | (.ok userInfo, ev) =>
          (next userInfo,
           AuthEvent.validateToken tokenString :: (ev ++ [AuthEvent.serveHTTP userInfo]))
    | _ => ({ Status := 401, Body := "Invalid authorization header format\n" }, [])

/-! ## The claims validation inside jwt.Parse -/

/-- The expiry validation that `jwt.Parse` of golang-jwt v5 runs on map claims
with its default options, at the instant `parsedAt` of its own clock reading:
a missing `exp` passes (the claim is optional), a number is read as whole
seconds and must lie after `parsedAt` (the number 0 is read as a missing
claim), and a value of any other type is an invalid claim. It runs after the
signature check and before `jwt.Parse` returns. -/
def jwtVerifyExpiresAt (parsedAt : Time) (claims : MapClaims) : Except String Unit :=
  match claims "exp" with
  | none => .ok ()
  | some (.num exp) =>
    if exp = 0 then .ok ()
    else if (parsedAt : Int) < Rat.floor exp * 1000000000 then .ok ()
    else .error "token is expired"
  | some _ => .error "invalid type for claim: exp is invalid"

/-- The oracle `w.verify` behaves as `jwt.Parse` does on the expiry: a token
it hands back carries the claims of the token it was given, and these passed
`jwtVerifyExpiresAt` at the instant `parsedAt`. -/
def ValidatesLikeJWT (w : AuthWorld) (parsedAt : Time) : Prop :=
  ∀ token key verified, w.verify token key = .ok verified →
    verified.Claims = token.Claims ∧
    ∀ claims, token.Claims = some claims → jwtVerifyExpiresAt parsedAt claims = .ok ()

/-! ## Sample worlds for the query path -/

/-- A configuration for the examples. -/
def sampleConfig : Auth0Config := { Domain := "t.auth0.com", Audience := "api" }

/-- Claims with the issuer of `sampleConfig`, subject `auth0|1`, and the given
audience and expiry. -/
def sampleClaims (aud : JSONValue) (exp : ℚ) : MapClaims := fun name =>
  if name = "aud" then some aud
  else if name = "iss" then some (.str "https://t.auth0.com/")
  else if name = "exp" then some (.num exp)
  else if name = "sub" then some (.str "auth0|1")
  else none

/-- Claims with the audience and issuer of `sampleConfig`, subject `auth0|1`,
and the given value of `exp`, if any. -/
def sampleClaimsWithExp (exp : Option JSONValue) : MapClaims := fun name =>
  if name = "aud" then some (.str "api")
  else if name = "iss" then some (.str "https://t.auth0.com/")
  else if name = "exp" then exp
  else if name = "sub" then some (.str "auth0|1")
  else none

/-- An RS256 token with the given key id and claims, not yet verified. -/
def sampleToken (kid : String) (claims : MapClaims) : Token :=
  { Method := .RSA,
    Header := fun name =>
      if name = "kid" then some (.str kid)
      else if name = "alg" then some (.str "RS256") else none,
    Claims := some claims, Valid := false }

/-- The one key of the sample key set. -/
def sampleKey : JSONWebKey :=
  { Kty := "RSA", Kid := "k1", Use := "sig", N := "wQ", E := "AQAB", X5c := [] }

/-- A world in which the clock reads 1 700 000 000 s, the key set holds
`sampleKey`, every signature verifies, the library validates the expiry at
that same instant (the sample tokens carry no other registered time claim),
and the token strings name their content. -/
def sampleAuthWorld : AuthWorld where
  parseUnverified := fun tokenString =>
    if tokenString = "good" then
      .ok (sampleToken "k1" (sampleClaims (.arr [.str "other", .str "api"]) 1800000000))
    else if tokenString = "other-audience" then
      .ok (sampleToken "k1" (sampleClaims (.str "other") 1800000000))
    else if tokenString = "expired" then
      .ok (sampleToken "k1" (sampleClaims (.str "api") 1600000000))
    else if tokenString = "expires-now" then
      .ok (sampleToken "k1" (sampleClaims (.str "api") 1700000000))
    else if tokenString = "unknown-kid" then
      .ok (sampleToken "k2" (sampleClaims (.str "api") 1800000000))
    else if tokenString = "exp-as-text" then
      .ok (sampleToken "k1" (sampleClaimsWithExp (some (.str "1800000000"))))
    else if tokenString = "no-exp" then
      .ok (sampleToken "k1" (sampleClaimsWithExp none))
    else .error "token is malformed"
  verify := fun token _ =>
    match token.Claims with
    | none => .ok { token with Valid := true }
    | some claims =>
      match jwtVerifyExpiresAt 1700000000000000000 claims with
      | .error e => .error ("token has invalid claims: " ++ e)
      | .ok () => .ok { token with Valid := true }
  keyfuncError := fun e => "token is unverifiable: error while executing keyfunc: " ++ e
  httpGet := fun _ => .ok "keys"
  decodeJWKS := fun _ => .ok { Keys := [sampleKey] }
  sprintV := fun _ => "RS256"
  int64Overflow := fun _ => -9223372036854775808
  now := 1700000000000000000

/-- A downstream handler that answers with the subject it was given. -/
def sampleNext (user : UserInfo) : Reply := { Status := 200, Body := user.UserID }

/-! ## Sample worlds for provisioning -/

/-- A target provider whose user search answers 500 while token requests and
user creation succeed; the created account is `auth0|new`. -/
def searchFailsWorld : World where
  ValidateJWT := fun _ => .ok "u-1"
  UserGet := fun userID =>
    .ok { ID := userID, Email := "a@x.io", Phone := "", EmailVerified := true,
          PhoneVerified := false }
  Do := fun req =>
    if req.Method = "GET" then
      .ok { StatusCode := 500, Status := "500 Internal Server Error", Body := "try later" }
    else if req.URL = "https://t.auth0.com/api/v2/users" then
      .ok { StatusCode := 201, Status := "201 Created", Body := "" }
    else .ok { StatusCode := 200, Status := "200 OK", Body := "" }
  decodeTokenResponse := fun _ =>
    .ok { AccessToken := "mgmt", IDToken := "", TokenType := "Bearer", ExpiresIn := 86400 }
  decodeUsers := fun _ => .ok []
  decodeUser := fun _ => .ok { UserID := "auth0|new", Email := "a@x.io", EmailVerified := true }

/-- The search request `findUserByEmail` sends. -/
def searchRequest (issuer : Auth0Issuer) (mgmtToken email : String) : HTTPRequest :=
  { Method := "GET",
    URL := "https://" ++ issuer.domain ++ "/api/v2/users-by-email?email=" ++ email,
    Authorization := "Bearer " ++ mgmtToken, ContentType := "application/json",
    Payload := [] }

/-- The create request `createUser` sends with the given password. -/
def createRequest (issuer : Auth0Issuer) (mgmtToken email : String) (emailVerified : Bool)
    (password : String) : HTTPRequest :=
  { Method := "POST", URL := "https://" ++ issuer.domain ++ "/api/v2/users",
    Authorization := "Bearer " ++ mgmtToken, ContentType := "application/json",
    Payload := [("email", .str email), ("email_verified", .bool emailVerified),
                ("password", .str password), ("connection", .str issuer.connection),
                ("verify_email", .bool false)] }

/-- A clock whose readings are 0.3 s apart, starting at 5.0 s. -/
def subSecondClock (n : Nat) : Time := 5000000000 + 300000000 * n

/-- The service after two earlier clock readings. -/
def laterService : TokenExchangeService := { sampleService with clockReads := 2 }

/-! ## Key conversion: the reading of the spec -/

/-- The big-endian unsigned integer of a sequence of bytes: the first byte is
the most significant. -/
def bigEndian : List Nat → Nat
  | [] => 0
  | b :: rest => b * 256 ^ rest.length + bigEndian rest

/-- Unpadded base64url text: every character is of the URL-safe alphabet and
the length is not 1 modulo 4. -/
def isRawBase64URL (s : String) : Prop :=
  (∀ c ∈ s.toList, (base64urlValue c).isSome = true) ∧ s.toList.length % 4 ≠ 1

/-! ## The invariant of the ledger -/

/-- The invariant of the ledger, at the point the clock has reached: keys are
not repeated, every record sits under its own legacy id, its first-migration
time is not after its last-exchange time, and not after any later reading of
the clock. -/
def LedgerInvariant (clock : Nat → Time) (s : TokenExchangeService) : Prop :=
  (s.migrationCache.map Prod.fst).Nodup ∧
  ∀ k rec, s.migrationCache.lookup k = some rec →
    rec.PassageUserID = k ∧ rec.MigratedAt ≤ rec.LastExchange ∧
    ∀ j, s.clockReads ≤ j → rec.MigratedAt ≤ clock j

/-- Three calls in a row: a first exchange for `u-1`, an exchange that fails
for want of an identifier, and a second exchange for `u-1`. -/
def sampleCalls : List (World × String) :=
  [(sampleWorld "a@x.io" "auth0|1", "t1"), (sampleWorld "" "auth0|1", "t2"),
   (sampleWorld "a@x.io" "auth0|2", "t3")]

/-- A legacy identity with a phone number and no email; the target provider
finds the account `auth0|7`. -/
def phoneOnlyWorld : World where
  ValidateJWT := fun _ => .ok "u-7"
  UserGet := fun userID =>
    .ok { ID := userID, Email := "", Phone := "+15550100", EmailVerified := false,
          PhoneVerified := true }
  Do := fun _ => .ok { StatusCode := 200, Status := "200 OK", Body := "" }
  decodeTokenResponse := fun _ =>
    .ok { AccessToken := "mgmt", IDToken := "", TokenType := "Bearer", ExpiresIn := 86400 }
  decodeUsers := fun _ =>
    .ok [{ UserID := "auth0|7", Email := "+15550100", EmailVerified := false }]
  decodeUser := fun _ => .error "unexpected end of JSON input"

/-- The token request `GetManagementToken` sends. -/
def tokenRequest (issuer : Auth0Issuer) : HTTPRequest :=
  { Method := "POST", URL := "https://" ++ issuer.domain ++ "/oauth/token",
    Authorization := "", ContentType := "application/json",
    Payload := [("grant_type", .str "client_credentials"),
                ("client_id", .str issuer.clientID),
                ("client_secret", .str issuer.clientSecret),
                ("audience", .str ("https://" ++ issuer.domain ++ "/api/v2/"))] }

/-! ## Lemmas on the ledger -/

theorem MigrationCache.lookup_store_self (m : MigrationCache) (key : String)
    (v : MigrationRecord) : (m.store key v).lookup key = some v := by
  induction m with
  | nil => simp [MigrationCache.store, MigrationCache.lookup]
  | cons e rest ih =>
    obtain ⟨k, v0⟩ := e
    by_cases h : k = key
    · simp [MigrationCache.store, MigrationCache.lookup, h]
    · simp [MigrationCache.store, MigrationCache.lookup, h, ih]

theorem MigrationCache.lookup_store_ne (m : MigrationCache) (key k2 : String)
    (v : MigrationRecord) (hne : k2 ≠ key) : (m.store key v).lookup k2 = m.lookup k2 := by
  induction m with
  | nil =>
    have h : ¬ key = k2 := fun h => hne h.symm
    simp [MigrationCache.store, MigrationCache.lookup, h]
  | cons e rest ih =>
    obtain ⟨k, v0⟩ := e
    by_cases h : k = key
    · have h2 : ¬ key = k2 := fun h => hne h.symm
      subst h
      simp [MigrationCache.store, MigrationCache.lookup, h2]
    · by_cases h3 : k = k2
      · subst h3
        simp [MigrationCache.store, MigrationCache.lookup, h]
      · simp [MigrationCache.store, MigrationCache.lookup, h, h3, ih]

theorem MigrationCache.countKey_store_ne (m : MigrationCache) (key k2 : String)
    (v : MigrationRecord) (hne : k2 ≠ key) :
    (m.store key v).countKey k2 = m.countKey k2 := by
  induction m with
  | nil =>
    have h : ¬ key = k2 := fun h => hne h.symm
    simp [MigrationCache.store, MigrationCache.countKey, h]
  | cons e rest ih =>
    obtain ⟨k, v0⟩ := e
    unfold MigrationCache.countKey at ih ⊢
    by_cases h : k = key
    · have h2 : ¬ key = k2 := fun h => hne h.symm
      subst h
      simp [MigrationCache.store, h2]
    · by_cases h3 : k = k2
      · subst h3
        simp [MigrationCache.store, h, ih]
      · simp [MigrationCache.store, h, h3, ih]

theorem MigrationCache.countKey_eq_zero (m : MigrationCache) (key : String) :
    m.countKey key = 0 ↔ m.lookup key = none := by
  induction m with
  | nil => simp [MigrationCache.countKey, MigrationCache.lookup]
  | cons e rest ih =>
    obtain ⟨k, v0⟩ := e
    unfold MigrationCache.countKey at ih ⊢
    by_cases h : k = key
    · simp [MigrationCache.lookup, h]
    · simp [MigrationCache.lookup, h, ih]

theorem MigrationCache.countKey_store_absent (m : MigrationCache) (key : String)
    (v : MigrationRecord) (habs : m.lookup key = none) :
    (m.store key v).countKey key = 1 := by
  induction m with
  | nil => simp [MigrationCache.store, MigrationCache.countKey]
  | cons e rest ih =>
    obtain ⟨k, v0⟩ := e
    unfold MigrationCache.countKey at ih ⊢
    by_cases h : k = key
    · simp [MigrationCache.lookup, h] at habs
    · simp [MigrationCache.lookup, h] at habs
      simp [MigrationCache.store, h, ih habs]

theorem MigrationCache.countKey_store_present (m : MigrationCache) (key : String)
    (v v0 : MigrationRecord) (hpres : m.lookup key = some v0) :
    (m.store key v).countKey key = m.countKey key := by
  induction m with
  | nil => simp [MigrationCache.lookup] at hpres
  | cons e rest ih =>
    obtain ⟨k, v1⟩ := e
    unfold MigrationCache.countKey at ih ⊢
    by_cases h : k = key
    · simp [MigrationCache.store, h]
    · simp [MigrationCache.lookup, h] at hpres
      simp [MigrationCache.store, h, ih hpres]

theorem MigrationCache.length_store_absent (m : MigrationCache) (key : String)
    (v : MigrationRecord) (habs : m.lookup key = none) :
    (m.store key v).length = m.length + 1 := by
  induction m with
  | nil => simp [MigrationCache.store]
  | cons e rest ih =>
    obtain ⟨k, v0⟩ := e
    by_cases h : k = key
    · simp [MigrationCache.lookup, h] at habs
    · simp [MigrationCache.lookup, h] at habs
      simp [MigrationCache.store, h, ih habs]

theorem MigrationCache.length_store_present (m : MigrationCache) (key : String)
    (v v0 : MigrationRecord) (hpres : m.lookup key = some v0) :
    (m.store key v).length = m.length := by
  induction m with
  | nil => simp [MigrationCache.lookup] at hpres
  | cons e rest ih =>
    obtain ⟨k, v1⟩ := e
    by_cases h : k = key
    · simp [MigrationCache.store, h]
    · simp [MigrationCache.lookup, h] at hpres
      simp [MigrationCache.store, h, ih hpres]


/-! ## Frame lemmas: calls to the outside leave the ledger alone -/

theorem SameLedger.refl (s : TokenExchangeService) : SameLedger s s :=
  ⟨rfl, le_refl _⟩

theorem SameLedger.trans {s1 s2 s3 : TokenExchangeService} (h12 : SameLedger s1 s2)
    (h23 : SameLedger s2 s3) : SameLedger s1 s3 :=
  ⟨h23.1.trans h12.1, le_trans h12.2 h23.2⟩

theorem record_sameLedger (s : TokenExchangeService) (c : Call) : SameLedger s (record s c) :=
  ⟨rfl, le_refl _⟩

theorem ValidateToken_sameLedger (w : World) (s : TokenExchangeService) (token : String) :
    SameLedger s (ValidateToken w s token).2 := by
  unfold ValidateToken
  split
  · exact ⟨rfl, le_refl _⟩
  · split <;> exact ⟨rfl, le_refl _⟩

theorem requestToken_sameLedger (w : World) (s : TokenExchangeService)
    (payload : List (String × PayloadValue)) :
    SameLedger s (requestToken w s payload).2 := by
  unfold requestToken
  dsimp only
  split
  · exact ⟨rfl, le_refl _⟩
  · split
    · exact ⟨rfl, le_refl _⟩
    · split <;> exact ⟨rfl, le_refl _⟩

theorem GetManagementToken_sameLedger (w : World) (s : TokenExchangeService) :
    SameLedger s (GetManagementToken w s).2 := by
  unfold GetManagementToken
  dsimp only
  split
  · next e s1 heq =>
    have h2 : _ = s1 := congrArg Prod.snd heq
    rw [← h2]
    exact (record_sameLedger s _).trans (requestToken_sameLedger w _ _)
  · next t s1 heq =>
    have h2 : _ = s1 := congrArg Prod.snd heq
    rw [← h2]
    exact (record_sameLedger s _).trans (requestToken_sameLedger w _ _)

theorem findUserByEmail_sameLedger (w : World) (s : TokenExchangeService)
    (mgmtToken email : String) : SameLedger s (findUserByEmail w s mgmtToken email).2 := by
  unfold findUserByEmail
  dsimp only
  split
  · exact ⟨rfl, le_refl _⟩
  · split
    · exact ⟨rfl, le_refl _⟩
    · split
      · exact ⟨rfl, le_refl _⟩
      · split <;> exact ⟨rfl, le_refl _⟩

theorem createUser_sameLedger (clock : Nat → Time) (w : World) (s : TokenExchangeService)
    (mgmtToken email : String) (emailVerified : Bool) :
    SameLedger s (createUser clock w s mgmtToken email emailVerified).2 := by
  unfold createUser generateRandomPassword timeNow
  simp only
  split
  · exact ⟨rfl, Nat.le_succ _⟩
  · split
    · exact ⟨rfl, Nat.le_succ _⟩
    · split <;> exact ⟨rfl, Nat.le_succ _⟩

theorem FindOrCreateUser_sameLedger (clock : Nat → Time) (w : World)
    (s : TokenExchangeService) (mgmtToken email : String) (emailVerified : Bool) :
    SameLedger s (FindOrCreateUser clock w s mgmtToken email emailVerified).2 := by
  unfold FindOrCreateUser
  dsimp only
  have h0 := record_sameLedger s (Call.FindOrCreateUser mgmtToken email emailVerified)
  have h1 := findUserByEmail_sameLedger w
    (record s (Call.FindOrCreateUser mgmtToken email emailVerified)) mgmtToken email
  split
  · next user s1 heq =>
    rw [heq] at h1
    exact h0.trans h1
  · next r s1 hne heq =>
    rw [heq] at h1
    exact (h0.trans h1).trans (createUser_sameLedger clock w s1 mgmtToken email emailVerified)


/-! ## What a successful exchange did -/

theorem lookupStep_ok {w : World} {s s1 : TokenExchangeService} {passageToken : String}
    {p : Pending} (h : ExchangeToken.lookupStep w s passageToken = (.ok p, s1)) :
    ValidateToken w s passageToken = (.ok p.migratedUser, s1) ∧
    ¬ (p.migratedUser.Email = "" ∧ p.migratedUser.Phone = "") ∧
    p.identifier =
      (if p.migratedUser.Email = "" then p.migratedUser.Phone else p.migratedUser.Email) ∧
    p.migration = s.migrationCache.lookup p.migratedUser.ID ∧
    p.isNewMigration = p.migration.isNone ∧
    SameLedger s s1 := by
  unfold ExchangeToken.lookupStep at h
  have hframe := ValidateToken_sameLedger w s passageToken
  split at h
  · simp at h
  · next user s0 heq =>
    rw [heq] at hframe
    split at h
    · simp at h
    · next hid =>
      simp only [Prod.mk.injEq, Except.ok.injEq] at h
      obtain ⟨hp, hs⟩ := h
      subst hs
      subst hp
      refine ⟨heq, hid, rfl, ?_, rfl, hframe⟩
      have hc : s0.migrationCache = s.migrationCache := hframe.1
      simp only [hc]

theorem updateStep_ok {clock : Nat → Time} {w : World} {s s3 : TokenExchangeService}
    {p : Pending} {r : ExchangeResult}
    (h : ExchangeToken.updateStep clock w s p = (.ok r, s3)) :
    ∃ (auth0User : Auth0User) (s2 : TokenExchangeService),
      SameLedger s s2 ∧
      r = { Auth0UserID := auth0User.UserID, Email := p.identifier, AccessToken := "",
            IDToken := "", ExpiresIn := 0, IsNewMigration := p.isNewMigration } ∧
      s3 = ExchangeToken.updateCache clock s2 p auth0User := by
  unfold ExchangeToken.updateStep at h
  have hg := GetManagementToken_sameLedger w s
  split at h
  · simp at h
  · next mgmtToken s1 heq1 =>
    rw [heq1] at hg
    have hf := FindOrCreateUser_sameLedger clock w s1 mgmtToken p.identifier
      p.migratedUser.EmailVerified
    split at h
    · simp at h
    · next auth0User s2 heq2 =>
      rw [heq2] at hf
      simp only [Prod.mk.injEq, Except.ok.injEq] at h
      exact ⟨auth0User, s2, hg.trans hf, h.1.symm, h.2.symm⟩

theorem updateCache_absent (clock : Nat → Time) (s : TokenExchangeService) (p : Pending)
    (auth0User : Auth0User) (h : p.migration = none) :
    (ExchangeToken.updateCache clock s p auth0User).migrationCache =
      s.migrationCache.store p.migratedUser.ID
        { PassageUserID := p.migratedUser.ID, Auth0UserID := auth0User.UserID,
          Email := p.identifier, MigratedAt := clock s.clockReads,
          LastExchange := clock (s.clockReads + 1) } ∧
    (ExchangeToken.updateCache clock s p auth0User).clockReads = s.clockReads + 2 := by
  unfold ExchangeToken.updateCache
  rw [h]
  exact ⟨rfl, rfl⟩

theorem updateCache_present (clock : Nat → Time) (s : TokenExchangeService) (p : Pending)
    (auth0User : Auth0User) (m : MigrationRecord) (h : p.migration = some m) :
    (ExchangeToken.updateCache clock s p auth0User).migrationCache =
      s.migrationCache.store p.migratedUser.ID
        { m with LastExchange := clock s.clockReads } ∧
    (ExchangeToken.updateCache clock s p auth0User).clockReads = s.clockReads + 1 := by
  unfold ExchangeToken.updateCache
  rw [h]
  exact ⟨rfl, rfl⟩

/-- A successful `ExchangeToken`: the identity it validated, the account the
provider returned, the clock reading at which the ledger was updated, and the
resulting ledger. -/
theorem ExchangeToken_ok {clock : Nat → Time} {w : World} {s s3 : TokenExchangeService}
    {passageToken : String} {r : ExchangeResult}
    (h : ExchangeToken clock w s passageToken = (.ok r, s3)) :
    ∃ (user : MigratedPassageUser) (auth0User : Auth0User) (n : Nat),
      (ValidateToken w s passageToken).1 = .ok user ∧
      ¬ (user.Email = "" ∧ user.Phone = "") ∧
      s.clockReads ≤ n ∧
      r = { Auth0UserID := auth0User.UserID,
            Email := (if user.Email = "" then user.Phone else user.Email),
            AccessToken := "", IDToken := "", ExpiresIn := 0,
            IsNewMigration := (s.migrationCache.lookup user.ID).isNone } ∧
      ((s.migrationCache.lookup user.ID = none ∧
        s3.migrationCache = s.migrationCache.store user.ID
          { PassageUserID := user.ID, Auth0UserID := auth0User.UserID,
            Email := (if user.Email = "" then user.Phone else user.Email),
            MigratedAt := clock n, LastExchange := clock (n + 1) } ∧
        s3.clockReads = n + 2) ∨
       (∃ m, s.migrationCache.lookup user.ID = some m ∧
        s3.migrationCache = s.migrationCache.store user.ID
          { m with LastExchange := clock n } ∧
        s3.clockReads = n + 1)) := by
  unfold ExchangeToken at h
  split at h
  · simp at h
  · next p s1 heq =>
    obtain ⟨hv, hid, hident, hmig, hnew, hframe1⟩ := lookupStep_ok heq
    obtain ⟨auth0User, s2, hframe2, hr, hs3⟩ := updateStep_ok h
    refine ⟨p.migratedUser, auth0User, s2.clockReads, ?_, hid, ?_, ?_, ?_⟩
    · rw [hv]
    · exact le_trans hframe1.2 hframe2.2
    · rw [hr, hident, hnew, hmig]
    · have hcache : s2.migrationCache = s.migrationCache := hframe2.1.trans hframe1.1
      cases hm : s.migrationCache.lookup p.migratedUser.ID with
      | none =>
        left
        have hp : p.migration = none := by rw [hmig, hm]
        obtain ⟨hc, hn⟩ := updateCache_absent clock s2 p auth0User hp
        refine ⟨rfl, ?_, ?_⟩
        · rw [hs3, hc, hcache, hident]
        · rw [hs3, hn]
      | some m =>
        right
        have hp : p.migration = some m := by rw [hmig, hm]
        obtain ⟨hc, hn⟩ := updateCache_present clock s2 p auth0User m hp
        refine ⟨m, rfl, ?_, ?_⟩
        · rw [hs3, hc, hcache]
        · rw [hs3, hn]


/-! ## Sequential exchanges -/

/-- C1. Starting from a ledger without a record for the legacy id, two
successful exchanges in sequence for that id report `IsNewMigration = true`
and then `false`; the ledger then holds exactly one record for the id, the
second call stored the first record with only `LastExchange` replaced
(whatever account the provider returned), no other key changed, and under a
non-decreasing clock the new `LastExchange` is not earlier than the old. -/
theorem exchange_twice_one_record (clock : Nat → Time) (w1 w2 : World)
    (s : TokenExchangeService) (tok1 tok2 : String) (u1 u2 : MigratedPassageUser)
    (r1 r2 : ExchangeResult)
    (hfresh : s.migrationCache.lookup u1.ID = none)
    (hv1 : (ValidateToken w1 s tok1).1 = .ok u1)
    (h1 : (ExchangeToken clock w1 s tok1).1 = .ok r1)
    (hv2 : (ValidateToken w2 (ExchangeToken clock w1 s tok1).2 tok2).1 = .ok u2)
    (hid : u2.ID = u1.ID)
    (h2 : (ExchangeToken clock w2 (ExchangeToken clock w1 s tok1).2 tok2).1 = .ok r2) :
    r1.IsNewMigration = true ∧ r2.IsNewMigration = false ∧
    ∃ rec1 rec2 : MigrationRecord,
      (ExchangeToken clock w1 s tok1).2.migrationCache.lookup u1.ID = some rec1 ∧
      rec1.PassageUserID = u1.ID ∧ rec1.Auth0UserID = r1.Auth0UserID ∧
      rec1.Email = r1.Email ∧
      (ExchangeToken clock w2 (ExchangeToken clock w1 s tok1).2 tok2).2.migrationCache
        = (ExchangeToken clock w1 s tok1).2.migrationCache.store u1.ID rec2 ∧
      (ExchangeToken clock w2 (ExchangeToken clock w1 s tok1).2 tok2).2.migrationCache.lookup
        u1.ID = some rec2 ∧
      (ExchangeToken clock w2 (ExchangeToken clock w1 s tok1).2 tok2).2.migrationCache.countKey
        u1.ID = 1 ∧
      rec2 = { rec1 with LastExchange := rec2.LastExchange } ∧
      (∀ k, k ≠ u1.ID →
        (ExchangeToken clock w2 (ExchangeToken clock w1 s tok1).2 tok2).2.migrationCache.lookup k
          = (ExchangeToken clock w1 s tok1).2.migrationCache.lookup k) ∧
      (Monotone clock → rec1.LastExchange ≤ rec2.LastExchange) := by
  have e1 : ExchangeToken clock w1 s tok1 = (.ok r1, (ExchangeToken clock w1 s tok1).2) :=
    Prod.ext h1 rfl
  have e2 : ExchangeToken clock w2 (ExchangeToken clock w1 s tok1).2 tok2
      = (.ok r2, (ExchangeToken clock w2 (ExchangeToken clock w1 s tok1).2 tok2).2) :=
    Prod.ext h2 rfl
  generalize (ExchangeToken clock w1 s tok1).2 = s1 at *
  generalize (ExchangeToken clock w2 s1 tok2).2 = s2 at *
  obtain ⟨user1, a1, n1, hu1, -, hn1, hr1, hcase1⟩ := ExchangeToken_ok e1
  obtain ⟨user2, a2, n2, hu2, -, hn2, hr2, hcase2⟩ := ExchangeToken_ok e2
  rw [hv1] at hu1
  rw [hv2] at hu2
  cases hu1
  cases hu2
  rcases hcase1 with ⟨-, hc1, hk1⟩ | ⟨m, hm, -, -⟩
  swap
  · rw [hfresh] at hm
    cases hm
  have hl1 := MigrationCache.lookup_store_self s.migrationCache u1.ID
    { PassageUserID := u1.ID, Auth0UserID := a1.UserID,
      Email := (if u1.Email = "" then u1.Phone else u1.Email),
      MigratedAt := clock n1, LastExchange := clock (n1 + 1) }
  rw [← hc1] at hl1
  rw [hid] at hcase2 hr2
  rcases hcase2 with ⟨hnone, -, -⟩ | ⟨m, hm, hc2, -⟩
  · rw [hl1] at hnone
    cases hnone
  rw [hl1] at hm
  cases hm
  refine ⟨by rw [hr1, hfresh]; rfl, by rw [hr2, hl1]; rfl, _, _, hl1, rfl, by rw [hr1],
    by rw [hr1], hc2, ?_, ?_, rfl, ?_, ?_⟩
  · rw [hc2]
    exact MigrationCache.lookup_store_self _ _ _
  · rw [hc2, MigrationCache.countKey_store_present _ _ _ _ hl1, hc1]
    exact MigrationCache.countKey_store_absent _ _ _ hfresh
  · intro k hk
    rw [hc2]
    exact MigrationCache.lookup_store_ne _ _ _ _ hk
  · intro hmono
    apply hmono
    show n1 + 1 ≤ n2
    omega


/-- Witness of C1: two exchanges for `u-1`, the provider answering with a
different account the second time; the ledger keeps the first record and only
moves `LastExchange`. -/
theorem exchange_twice_one_record_witness :
    (ExchangeToken sampleClock (sampleWorld "a@x.io" "auth0|2")
        (ExchangeToken sampleClock (sampleWorld "a@x.io" "auth0|1") sampleService "t1").2
        "t2").2.migrationCache
      = [("u-1", { PassageUserID := "u-1", Auth0UserID := "auth0|1", Email := "a@x.io",
                   MigratedAt := 5000000000, LastExchange := 7000000000 })] ∧
    (ExchangeToken sampleClock (sampleWorld "a@x.io" "auth0|2")
        (ExchangeToken sampleClock (sampleWorld "a@x.io" "auth0|1") sampleService "t1").2
        "t2").2.migrationCache.countKey "u-1" = 1 := by
  obtain ⟨-, -, rec1, rec2, -, -, -, -, -, -, hcount, -⟩ :=
    exchange_twice_one_record sampleClock (sampleWorld "a@x.io" "auth0|1")
      (sampleWorld "a@x.io" "auth0|2") sampleService "t1" "t2"
      (sampleUser "a@x.io") (sampleUser "a@x.io")
      { Auth0UserID := "auth0|1", Email := "a@x.io", AccessToken := "", IDToken := "",
        ExpiresIn := 0, IsNewMigration := true }
      { Auth0UserID := "auth0|2", Email := "a@x.io", AccessToken := "", IDToken := "",
        ExpiresIn := 0, IsNewMigration := false }
      rfl rfl rfl rfl rfl rfl
  exact ⟨rfl, hcount⟩


/-! ## Interleaved exchanges -/

/-- Running a call alone is taking its two steps one after the other. -/
theorem ExchangeToken_eq_two_steps (clock : Nat → Time) (w : World)
    (s : TokenExchangeService) (passageToken : String) (other : Thread) :
    (runSchedule clock [false, false]
        { first := .start w passageToken, second := other, service := s }).first.result
      = some (ExchangeToken clock w s passageToken).1 ∧
    (runSchedule clock [false, false]
        { first := .start w passageToken, second := other, service := s }).service
      = (ExchangeToken clock w s passageToken).2 := by
  simp only [runSchedule, Thread.step, ExchangeToken]
  cases h : ExchangeToken.lookupStep w s passageToken with
  | mk r s1 =>
    cases r with
    | error e => exact ⟨rfl, rfl⟩
    | ok p => exact ⟨rfl, rfl⟩

/-- C2. Both calls look up the ledger before either updates it. The first
writer stores a record with account `auth0|1` and `MigratedAt` 5 s; the second
writer, whose local `migration` is still nil, stores a fresh record in its
place: account `auth0|2`, `MigratedAt` 7 s. One record remains under the key,
and both calls report a new migration. -/
theorem race_second_writer_replaces_record :
    (runSchedule sampleClock [false, true, false] sampleRace).service.migrationCache
      = [("u-1", { PassageUserID := "u-1", Auth0UserID := "auth0|1", Email := "a@x.io",
                   MigratedAt := 5000000000, LastExchange := 6000000000 })] ∧
    (runSchedule sampleClock [false, true, false, true] sampleRace).service.migrationCache
      = [("u-1", { PassageUserID := "u-1", Auth0UserID := "auth0|2", Email := "a@x.io",
                   MigratedAt := 7000000000, LastExchange := 8000000000 })] ∧
    (runSchedule sampleClock [false, true, false, true] sampleRace).first.result
      = some (.ok { Auth0UserID := "auth0|1", Email := "a@x.io", AccessToken := "",
                    IDToken := "", ExpiresIn := 0, IsNewMigration := true }) ∧
    (runSchedule sampleClock [false, true, false, true] sampleRace).second.result
      = some (.ok { Auth0UserID := "auth0|2", Email := "a@x.io", AccessToken := "",
                    IDToken := "", ExpiresIn := 0, IsNewMigration := true }) :=
  ⟨rfl, rfl, rfl, rfl⟩

/-! ## Rejection without identifier -/

theorem ValidateToken_ok_trace {w : World} {s : TokenExchangeService} {token : String}
    {u : MigratedPassageUser} (h : (ValidateToken w s token).1 = .ok u) :
    ∃ userID, (ValidateToken w s token).2.trace
      = s.trace ++ [Call.ValidateJWT token, Call.UserGet userID] := by
  unfold ValidateToken at h ⊢
  dsimp only at h ⊢
  cases hj : w.ValidateJWT token with
  | error e => rw [hj] at h; simp at h
  | ok userID =>
    rw [hj] at h
    dsimp only at h ⊢
    refine ⟨userID, ?_⟩
    cases hg : w.UserGet userID with
    | error e => rw [hg] at h; simp at h
    | ok user => simp [record]

/-- C3. When the validated legacy identity has neither email nor phone,
`ExchangeToken` fails with the no-identifier error, the only outbound calls
it made are the two calls to the legacy provider (so neither
`GetManagementToken` nor `FindOrCreateUser` nor any HTTP request to the target
provider), and the ledger is as before. -/
theorem exchange_without_identifier_rejected (clock : Nat → Time) (w : World)
    (s : TokenExchangeService) (passageToken : String) (u : MigratedPassageUser)
    (hv : (ValidateToken w s passageToken).1 = .ok u)
    (hemail : u.Email = "") (hphone : u.Phone = "") :
    (ExchangeToken clock w s passageToken).1 = .error "passage user has no email or phone" ∧
    (ExchangeToken clock w s passageToken).2.migrationCache = s.migrationCache ∧
    (ExchangeToken clock w s passageToken).2.clockReads = s.clockReads ∧
    ∃ calls, (ExchangeToken clock w s passageToken).2.trace = s.trace ++ calls ∧
      (∃ userID, calls = [Call.ValidateJWT passageToken, Call.UserGet userID]) ∧
      ∀ c ∈ calls, c.isTargetProvider = false := by
  obtain ⟨userID, htrace⟩ := ValidateToken_ok_trace hv
  have hframe := ValidateToken_sameLedger w s passageToken
  have hsame : (ExchangeToken clock w s passageToken)
      = (.error "passage user has no email or phone", (ValidateToken w s passageToken).2) := by
    unfold ExchangeToken ExchangeToken.lookupStep
    cases hvt : ValidateToken w s passageToken with
    | mk r s1 =>
      rw [hvt] at hv
      simp only at hv
      subst hv
      simp [hemail, hphone]
  have hreads : (ValidateToken w s passageToken).2.clockReads = s.clockReads := by
    unfold ValidateToken
    dsimp only
    split
    · rfl
    · split <;> rfl
  rw [hsame]
  refine ⟨rfl, hframe.1, hreads, _, htrace, ⟨userID, rfl⟩, ?_⟩
  intro c hc
  simp only [List.mem_cons, List.mem_singleton, List.not_mem_nil, or_false] at hc
  rcases hc with rfl | rfl <;> rfl

/-- Witness of C3: a legacy identity with empty email and phone. -/
theorem exchange_without_identifier_rejected_witness :
    (ExchangeToken sampleClock (sampleWorld "" "auth0|1") sampleService "t1").1
      = .error "passage user has no email or phone" ∧
    (ExchangeToken sampleClock (sampleWorld "" "auth0|1") sampleService "t1").2.trace
      = [Call.ValidateJWT "t1", Call.UserGet "u-1"] :=
  ⟨(exchange_without_identifier_rejected sampleClock (sampleWorld "" "auth0|1") sampleService
      "t1" (sampleUser "") rfl rfl rfl).1, rfl⟩

/-! ## Counting migrated users -/

theorem lookupStep_sameLedger (w : World) (s : TokenExchangeService) (passageToken : String) :
    SameLedger s (ExchangeToken.lookupStep w s passageToken).2 := by
  unfold ExchangeToken.lookupStep
  have hframe := ValidateToken_sameLedger w s passageToken
  split
  · next e s1 heq => rw [heq] at hframe; exact hframe
  · next user s1 heq =>
    rw [heq] at hframe
    split <;> exact hframe

theorem updateStep_error_sameLedger {clock : Nat → Time} {w : World}
    {s : TokenExchangeService} {p : Pending} {e : String}
    (h : (ExchangeToken.updateStep clock w s p).1 = .error e) :
    SameLedger s (ExchangeToken.updateStep clock w s p).2 := by
  unfold ExchangeToken.updateStep at h ⊢
  have hg := GetManagementToken_sameLedger w s
  split
  · next e1 s1 heq1 => rw [heq1] at hg; exact hg
  · next mgmtToken s1 heq1 =>
    rw [heq1] at hg h
    dsimp only at h ⊢
    have hf := FindOrCreateUser_sameLedger clock w s1 mgmtToken p.identifier
      p.migratedUser.EmailVerified
    split
    · next e2 s2 heq2 => rw [heq2] at hf; exact hg.trans hf
    · next auth0User s2 heq2 => rw [heq2] at h; simp at h

theorem ExchangeToken_error_sameLedger {clock : Nat → Time} {w : World}
    {s : TokenExchangeService} {passageToken : String} {e : String}
    (h : (ExchangeToken clock w s passageToken).1 = .error e) :
    (ExchangeToken clock w s passageToken).2.migrationCache = s.migrationCache := by
  unfold ExchangeToken at h ⊢
  have hl := lookupStep_sameLedger w s passageToken
  split
  · next e1 s1 heq => rw [heq] at hl; exact hl.1
  · next p s1 heq =>
    rw [heq] at hl h
    dsimp only at h
    exact ((updateStep_error_sameLedger h).1).trans hl.1

theorem MigrationCache.lookup_eq_none_iff (m : MigrationCache) (key : String) :
    m.lookup key = none ↔ key ∉ m.map Prod.fst := by
  induction m with
  | nil => simp [MigrationCache.lookup]
  | cons e rest ih =>
    obtain ⟨k, v0⟩ := e
    by_cases h : k = key
    · simp [MigrationCache.lookup, h]
    · have h2 : ¬ key = k := fun h3 => h h3.symm
      simp [MigrationCache.lookup, h, h2, ih]

theorem MigrationCache.keys_store (m : MigrationCache) (key : String) (v : MigrationRecord) :
    (m.store key v).map Prod.fst
      = if key ∈ m.map Prod.fst then m.map Prod.fst else m.map Prod.fst ++ [key] := by
  induction m with
  | nil => simp [MigrationCache.store]
  | cons e rest ih =>
    obtain ⟨k, v0⟩ := e
    by_cases h : k = key
    · simp [MigrationCache.store, h]
    · have h2 : ¬ key = k := fun h3 => h h3.symm
      simp only [MigrationCache.store, h, if_false, List.map_cons, ih, List.mem_cons, h2,
        false_or]
      split <;> simp

theorem MigrationCache.keys_store_nodup (m : MigrationCache) (key : String)
    (v : MigrationRecord) (h : (m.map Prod.fst).Nodup) :
    ((m.store key v).map Prod.fst).Nodup := by
  rw [MigrationCache.keys_store]
  split
  · exact h
  · next hnot =>
    rw [List.nodup_append]
    refine ⟨h, List.nodup_singleton _, ?_⟩
    intro a ha hb
    simp only [List.mem_singleton] at hb
    subst hb
    exact hnot ha

theorem MigrationCache.keys_store_toFinset (m : MigrationCache) (key : String)
    (v : MigrationRecord) :
    ((m.store key v).map Prod.fst).toFinset = insert key (m.map Prod.fst).toFinset := by
  rw [MigrationCache.keys_store]
  split
  · next hmem =>
    rw [Finset.insert_eq_of_mem]
    exact List.mem_toFinset.mpr hmem
  · ext a
    simp only [List.toFinset_append, List.toFinset_cons, List.toFinset_nil, Finset.mem_union,
      List.mem_toFinset, Finset.mem_insert, Finset.mem_singleton]
    tauto

/-- One call of a run: the keys of the ledger afterwards. -/
theorem ExchangeToken_keys (clock : Nat → Time) (w : World) (s : TokenExchangeService)
    (passageToken : String) :
    (∃ e, (ExchangeToken clock w s passageToken).1 = .error e ∧
      (ExchangeToken clock w s passageToken).2.migrationCache = s.migrationCache) ∨
    (∃ r user rec, (ExchangeToken clock w s passageToken).1 = .ok r ∧
      (ValidateToken w s passageToken).1 = .ok user ∧
      (ExchangeToken clock w s passageToken).2.migrationCache
        = s.migrationCache.store user.ID rec) := by
  cases hres : (ExchangeToken clock w s passageToken).1 with
  | error e => exact Or.inl ⟨e, rfl, ExchangeToken_error_sameLedger hres⟩
  | ok r =>
    right
    have e1 : ExchangeToken clock w s passageToken
        = (.ok r, (ExchangeToken clock w s passageToken).2) := Prod.ext hres rfl
    obtain ⟨user, a, n, hu, -, -, -, hcase⟩ := ExchangeToken_ok e1
    rcases hcase with ⟨-, hc, -⟩ | ⟨m, -, hc, -⟩
    · exact ⟨r, user, _, rfl, hu, hc⟩
    · exact ⟨r, user, _, rfl, hu, hc⟩

theorem runExchanges_keys (clock : Nat → Time) (calls : List (World × String)) :
    ∀ s : TokenExchangeService, (s.migrationCache.map Prod.fst).Nodup →
      ((runExchanges clock calls s).migrationCache.map Prod.fst).Nodup ∧
      ((runExchanges clock calls s).migrationCache.map Prod.fst).toFinset
        = (s.migrationCache.map Prod.fst).toFinset ∪ (migratedIDs clock calls s).toFinset := by
  induction calls with
  | nil =>
    intro s hs
    simp [runExchanges, migratedIDs, hs]
  | cons c rest ih =>
    intro s hs
    obtain ⟨w, passageToken⟩ := c
    rcases ExchangeToken_keys clock w s passageToken with ⟨e, he, hc⟩ | ⟨r, user, rec, hr, hu, hc⟩
    · have hs1 : ((ExchangeToken clock w s passageToken).2.migrationCache.map Prod.fst).Nodup := by
        rw [hc]; exact hs
      obtain ⟨h1, h2⟩ := ih _ hs1
      simp only [runExchanges, migratedIDs, he]
      exact ⟨h1, by rw [h2, hc]⟩
    · have hs1 : ((ExchangeToken clock w s passageToken).2.migrationCache.map Prod.fst).Nodup := by
        rw [hc]; exact MigrationCache.keys_store_nodup _ _ _ hs
      obtain ⟨h1, h2⟩ := ih _ hs1
      simp only [runExchanges, migratedIDs, hr, hu]
      refine ⟨h1, ?_⟩
      rw [h2, hc, MigrationCache.keys_store_toFinset, List.toFinset_cons]
      ext a
      simp only [Finset.mem_union, Finset.mem_insert]
      tauto

/-- C4. After any sequence of calls of `ExchangeToken` on a freshly started
service, successful or not and with ids repeated or not, `GetMigrationStats`
reports as `total_migrated_users` and as `cache_size` the number of distinct
legacy ids among the calls that succeeded. -/
theorem stats_count_distinct_migrated (clock : Nat → Time) (issuer : Auth0Issuer)
    (calls : List (World × String)) :
    (GetMigrationStats
        (runExchanges clock calls (NewTokenExchangeService issuer))).total_migrated_users
      = (migratedIDs clock calls (NewTokenExchangeService issuer)).toFinset.card ∧
    (GetMigrationStats
        (runExchanges clock calls (NewTokenExchangeService issuer))).cache_size
      = (migratedIDs clock calls (NewTokenExchangeService issuer)).toFinset.card := by
  obtain ⟨hnd, hset⟩ := runExchanges_keys clock calls (NewTokenExchangeService issuer)
    (by simp [NewTokenExchangeService])
  have hlen : (runExchanges clock calls (NewTokenExchangeService issuer)).migrationCache.length
      = (migratedIDs clock calls (NewTokenExchangeService issuer)).toFinset.card := by
    rw [← List.length_map _ Prod.fst, ← List.toFinset_card_of_nodup hnd, hset]
    simp [NewTokenExchangeService]
  exact ⟨hlen, hlen⟩

/-! ## The exchange endpoint -/

theorem TrimPrefix_append (pre rest : String) : TrimPrefix (pre ++ rest) pre = rest := by
  unfold TrimPrefix
  have h : pre.toList.isPrefixOf (pre ++ rest).toList = true := by
    rw [List.isPrefixOf_iff_prefix]
    simp
  rw [if_pos h]
  simp

theorem TrimPrefix_of_not_prefix (s pre : String) (h : ¬ pre.toList <+: s.toList) :
    TrimPrefix s pre = s := by
  unfold TrimPrefix
  have h2 : ¬ pre.toList.isPrefixOf s.toList = true := by
    rw [List.isPrefixOf_iff_prefix]
    exact h
  rw [if_neg h2]

/-- C9. For a POST to `HandleExchangeToken`: the status is 400 exactly when
the body does not decode or `passage_token` is empty; otherwise the token
given to `ExchangeToken` is `passage_token` with one leading `Bearer ` removed
(what follows is left as it is, and a token without the prefix is passed
unchanged), the service is left as `ExchangeToken` left it, a failure gives
401 with `success=false` and the error text as message, and a success gives
200 with `success=true` and the three fields of the exchange result. -/
theorem handle_exchange_token_responses (clock : Nat → Time) (w : World)
    (decodeBody : String → Except String ExchangeTokenRequest)
    (s : TokenExchangeService) (body : String) :
    ((HandleExchangeToken clock w decodeBody s { Method := "POST", Body := body }).1.status = 400
      ↔ ((∃ e, decodeBody body = .error e) ∨ decodeBody body = .ok { PassageToken := "" })) ∧
    (∀ req, decodeBody body = .ok req → req.PassageToken ≠ "" →
      (HandleExchangeToken clock w decodeBody s { Method := "POST", Body := body }).2
        = (ExchangeToken clock w s (TrimPrefix req.PassageToken "Bearer ")).2 ∧
      (∀ e, (ExchangeToken clock w s (TrimPrefix req.PassageToken "Bearer ")).1 = .error e →
        (HandleExchangeToken clock w decodeBody s { Method := "POST", Body := body }).1
          = .exchange 401 { Success := false, Auth0UserID := "", Email := "",
                            IsNewMigration := false, Message := e }) ∧
      (∀ result, (ExchangeToken clock w s (TrimPrefix req.PassageToken "Bearer ")).1 = .ok result →
        (HandleExchangeToken clock w decodeBody s { Method := "POST", Body := body }).1
          = .exchange 200
              { Success := true, Auth0UserID := result.Auth0UserID, Email := result.Email,
                IsNewMigration := result.IsNewMigration,
                Message := "User migrated successfully. Use passwordless authentication to get Auth0 token." }) ∧
      ((HandleExchangeToken clock w decodeBody s { Method := "POST", Body := body }).1.status = 401
        ↔ ∃ e, (ExchangeToken clock w s (TrimPrefix req.PassageToken "Bearer ")).1 = .error e)) ∧
    (∀ rest : String, TrimPrefix ("Bearer " ++ rest) "Bearer " = rest) ∧
    (∀ t : String, ¬ "Bearer ".toList <+: t.toList → TrimPrefix t "Bearer " = t) := by
  refine ⟨?_, ?_, fun rest => TrimPrefix_append _ _, fun t h => TrimPrefix_of_not_prefix _ _ h⟩
  · unfold HandleExchangeToken
    simp only [ne_eq, not_true_eq_false, if_false]
    cases hd : decodeBody body with
    | error e => simp [HandlerResponse.status]
    | ok req =>
      obtain ⟨tok⟩ := req
      by_cases ht : tok = ""
      · simp [ht, HandlerResponse.status]
      · simp only [ht, if_false]
        cases hx : ExchangeToken clock w s (TrimPrefix tok "Bearer ") with
        | mk res s1 =>
          cases res with
          | error e => simp [HandlerResponse.status, ht]
          | ok result => simp [HandlerResponse.status, ht]
  · intro req hd hne
    unfold HandleExchangeToken
    simp only [ne_eq, not_true_eq_false, if_false, hd, hne]
    cases hx : ExchangeToken clock w s (TrimPrefix req.PassageToken "Bearer ") with
    | mk res s1 =>
      cases res with
      | error e => simp [HandlerResponse.status]
      | ok result => simp [HandlerResponse.status]

/-- Witness of C9: the body token `Bearer Bearer t1` reaches the legacy
provider as `Bearer t1`, one prefix removed, and the exchange result is copied
into a 200 response. -/
theorem handle_exchange_token_responses_witness :
    (HandleExchangeToken sampleClock (sampleWorld "a@x.io" "auth0|1") sampleDecodeBody
        sampleService { Method := "POST", Body := "Bearer Bearer t1" }).1
      = .exchange 200
          { Success := true, Auth0UserID := "auth0|1", Email := "a@x.io",
            IsNewMigration := true,
            Message := "User migrated successfully. Use passwordless authentication to get Auth0 token." } ∧
    (HandleExchangeToken sampleClock (sampleWorld "a@x.io" "auth0|1") sampleDecodeBody
        sampleService { Method := "POST", Body := "Bearer Bearer t1" }).2.trace.head?
      = some (Call.ValidateJWT "Bearer t1") := by
  have h := (handle_exchange_token_responses sampleClock (sampleWorld "a@x.io" "auth0|1")
    sampleDecodeBody sampleService "Bearer Bearer t1").2.1
    { PassageToken := "Bearer Bearer t1" } rfl (by decide)
  have hres : (ExchangeToken sampleClock (sampleWorld "a@x.io" "auth0|1") sampleService
      (TrimPrefix "Bearer Bearer t1" "Bearer ")).1
      = .ok { Auth0UserID := "auth0|1", Email := "a@x.io", AccessToken := "",
              IDToken := "", ExpiresIn := 0, IsNewMigration := true } := rfl
  exact ⟨h.2.2.1 _ hres, by rw [h.1]; rfl⟩

/-! ## The claims checks of validateToken -/

theorem validateToken_of_parse {w : AuthWorld} {config : Auth0Config} {tokenString : String}
    {token : Token} {claims : MapClaims} {ev : List AuthEvent}
    (hparse : jwtParse w tokenString (keyFunc w config) = (.ok token, ev))
    (hclaims : token.Claims = some claims) (hvalid : token.Valid = true) :
    validateToken w tokenString config = (validateClaims w claims config, ev) := by
  unfold validateToken
  rw [hparse]
  simp only [hclaims, hvalid]

theorem audienceFound_iff (audience : String) (l : List JSONValue) :
    audienceFound audience l = true ↔ JSONValue.str audience ∈ l := by
  induction l with
  | nil => simp [audienceFound]
  | cons a rest ih =>
    cases a with
    | str s =>
      by_cases h : s = audience
      · simp [audienceFound, h]
      · have h2 : ¬ audience = s := fun h3 => h h3.symm
        simp [audienceFound, h, h2, ih]
    | null => simp [audienceFound, ih]
    | bool b => simp [audienceFound, ih]
    | num q => simp [audienceFound, ih]
    | arr items => simp [audienceFound, ih]
    | obj fields => simp [audienceFound, ih]

theorem checkAudience_ok_iff (claims : MapClaims) (config : Auth0Config) :
    checkAudience claims config = .ok () ↔
      (claims "aud" = some (.str config.Audience) ∨
       ∃ l, claims "aud" = some (.arr l) ∧ JSONValue.str config.Audience ∈ l) := by
  unfold checkAudience
  split
  · next aud heq =>
    by_cases h : aud = config.Audience
    · simp [h, heq]
    · simp [h, heq]
  · next audArray heq =>
    by_cases h : audienceFound config.Audience audArray = true
    · simp [h, heq, (audienceFound_iff _ _).mp h]
    · have h2 : JSONValue.str config.Audience ∉ audArray := fun hm =>
        h ((audienceFound_iff _ _).mpr hm)
      simp [h, heq, h2]
  · next hstr harr =>
    simp only [reduceCtorEq, false_iff, not_or, not_exists, not_and]
    exact ⟨fun h => hstr _ h, fun l h => (harr l h).elim⟩

theorem checkAudience_error (claims : MapClaims) (config : Auth0Config) (e : String)
    (h : checkAudience claims config = .error e) :
    (e = "invalid audience" ∧
      ((∃ a, claims "aud" = some (.str a)) ∨ ∃ l, claims "aud" = some (.arr l))) ∨
    (e = "audience claim not found" ∧
      (∀ a, claims "aud" ≠ some (.str a)) ∧ ∀ l, claims "aud" ≠ some (.arr l)) := by
  unfold checkAudience at h
  split at h
  · next aud heq =>
    left
    split at h
    · simp only [Except.error.injEq] at h
      exact ⟨h.symm, Or.inl ⟨aud, heq⟩⟩
    · simp at h
  · next audArray heq =>
    left
    split at h
    · simp at h
    · simp only [Except.error.injEq] at h
      exact ⟨h.symm, Or.inr ⟨audArray, heq⟩⟩
  · next hstr harr =>
    right
    simp only [Except.error.injEq] at h
    exact ⟨h.symm, fun a ha => hstr a ha, fun l hl => harr l hl⟩

theorem checkIssuer_error (claims : MapClaims) (config : Auth0Config) (e : String)
    (h : checkIssuer claims config = .error e) : e = "invalid issuer" := by
  unfold checkIssuer at h
  dsimp only at h
  split at h
  · split at h
    · simp only [Except.error.injEq] at h
      exact h.symm
    · simp at h
  · simp only [Except.error.injEq] at h
    exact h.symm

theorem checkExpiry_error (w : AuthWorld) (claims : MapClaims) (e : String)
    (h : checkExpiry w claims = .error e) :
    e = "token expired" ∨ e = "expiration claim not found" := by
  unfold checkExpiry at h
  split at h
  · split at h
    · simp only [Except.error.injEq] at h
      exact Or.inl h.symm
    · simp at h
  · simp only [Except.error.injEq] at h
    exact Or.inr h.symm

/-- Which step of the claims part failed, for each way it can fail. -/
theorem validateClaims_error (w : AuthWorld) (claims : MapClaims) (config : Auth0Config)
    (e : String) (h : validateClaims w claims config = .error e) :
    checkAudience claims config = .error e ∨
    (checkAudience claims config = .ok () ∧ checkIssuer claims config = .error e) ∨
    (checkAudience claims config = .ok () ∧ checkIssuer claims config = .ok () ∧
      checkExpiry w claims = .error e) ∨
    (checkAudience claims config = .ok () ∧ checkIssuer claims config = .ok () ∧
      checkExpiry w claims = .ok () ∧ e = "sub claim not found") := by
  unfold validateClaims at h
  cases ha : checkAudience claims config with
  | error e1 =>
    rw [ha] at h
    simp only [Except.error.injEq] at h
    exact Or.inl (by rw [h])
  | ok u1 =>
    rw [ha] at h
    dsimp only at h
    cases hi : checkIssuer claims config with
    | error e2 =>
      rw [hi] at h
      simp only [Except.error.injEq] at h
      exact Or.inr (Or.inl ⟨rfl, by rw [h]⟩)
    | ok u2 =>
      rw [hi] at h
      dsimp only at h
      cases hx : checkExpiry w claims with
      | error e3 =>
        rw [hx] at h
        simp only [Except.error.injEq] at h
        exact Or.inr (Or.inr (Or.inl ⟨rfl, rfl, by rw [h]⟩))
      | ok u3 =>
        rw [hx] at h
        dsimp only at h
        split at h
        · simp at h
        · simp only [Except.error.injEq] at h
          exact Or.inr (Or.inr (Or.inr ⟨rfl, rfl, rfl, h.symm⟩))

theorem validateClaims_invalid_audience_iff (w : AuthWorld) (claims : MapClaims)
    (config : Auth0Config) :
    validateClaims w claims config = .error "invalid audience" ↔
      checkAudience claims config = .error "invalid audience" := by
  constructor
  · intro h
    rcases validateClaims_error w claims config _ h with h1 | ⟨-, h2⟩ | ⟨-, -, h3⟩ | ⟨-, -, -, h4⟩
    · exact h1
    · exact absurd (checkIssuer_error _ _ _ h2) (by decide)
    · rcases checkExpiry_error _ _ _ h3 with h5 | h5
      · exact absurd h5 (by decide)
      · exact absurd h5 (by decide)
    · exact absurd h4 (by decide)
  · intro h
    unfold validateClaims
    rw [h]

/-- C5. For the claims of a token that `jwt.Parse` accepted, the audience
check of `validateToken` passes exactly when `aud` is the string
`config.Audience` or an array with a string element equal to it; and
`validateToken` fails with `invalid audience` exactly when `aud` is a string
or an array and the check does not pass. -/
theorem audience_check_string_or_array (w : AuthWorld) (config : Auth0Config)
    (tokenString : String) (token : Token) (claims : MapClaims) (ev : List AuthEvent)
    (hparse : jwtParse w tokenString (keyFunc w config) = (.ok token, ev))
    (hclaims : token.Claims = some claims) (hvalid : token.Valid = true) :
    (checkAudience claims config = .ok () ↔
      (claims "aud" = some (.str config.Audience) ∨
       ∃ l, claims "aud" = some (.arr l) ∧ JSONValue.str config.Audience ∈ l)) ∧
    ((validateToken w tokenString config).1 = .error "invalid audience" ↔
      (((∃ a, claims "aud" = some (.str a)) ∨ ∃ l, claims "aud" = some (.arr l)) ∧
       ¬ (claims "aud" = some (.str config.Audience) ∨
          ∃ l, claims "aud" = some (.arr l) ∧ JSONValue.str config.Audience ∈ l))) := by
  refine ⟨checkAudience_ok_iff claims config, ?_⟩
  rw [validateToken_of_parse hparse hclaims hvalid]
  show validateClaims w claims config = .error "invalid audience" ↔ _
  rw [validateClaims_invalid_audience_iff, ← checkAudience_ok_iff]
  constructor
  · intro h
    rcases checkAudience_error claims config _ h with ⟨-, hshape⟩ | ⟨hne, -⟩
    · exact ⟨hshape, by rw [h]; simp⟩
    · exact absurd hne (by decide)
  · rintro ⟨hshape, hnot⟩
    cases hc : checkAudience claims config with
    | ok u => exact absurd hc hnot
    | error e =>
      rcases checkAudience_error claims config e hc with ⟨he, -⟩ | ⟨-, hs, ha⟩
      · rw [he]
      · rcases hshape with ⟨a, h1⟩ | ⟨l, h1⟩
        · exact absurd h1 (hs a)
        · exact absurd h1 (ha l)

/-- Witness of C5: a token whose `aud` is an array holding the expected
audience passes the audience check, and one whose `aud` is another string is
rejected with `invalid audience`. -/
theorem audience_check_string_or_array_witness :
    checkAudience (sampleClaims (.arr [.str "other", .str "api"]) 1800000000) sampleConfig
      = .ok () ∧
    (validateToken sampleAuthWorld "other-audience" sampleConfig).1
      = .error "invalid audience" := by
  constructor
  · exact (audience_check_string_or_array sampleAuthWorld sampleConfig "good"
      { sampleToken "k1" (sampleClaims (.arr [.str "other", .str "api"]) 1800000000)
          with Valid := true }
      (sampleClaims (.arr [.str "other", .str "api"]) 1800000000) _ rfl rfl rfl).1.mpr
      (Or.inr ⟨_, rfl, by simp [sampleConfig]⟩)
  · rfl

/-! ## The expiry check -/

/-- The check of line 159 taken alone lets an `exp` equal to the current
second through; `validateToken` does not get that far with such a token,
`jwt.Parse` has rejected it. -/
theorem equal_second_rejected_by_parse :
    int64OfFloat64 sampleAuthWorld 1700000000 = Time.Unix sampleAuthWorld.now ∧
    checkExpiry sampleAuthWorld (sampleClaims (.str "api") 1700000000) = .ok () ∧
    (validateToken sampleAuthWorld "expires-now" sampleConfig).1
      = .error "token has invalid claims: token is expired" :=
  ⟨rfl, rfl, rfl⟩

/-- The check of lines 154-161 on its own: it rejects as expired exactly when
`exp` is a number and the current Unix time is strictly greater than
`int64(exp)`; it rejects with `expiration claim not found` exactly when `exp`
is missing or not a number; it passes exactly when `exp` is a number and the
current Unix time is at most `int64(exp)`; and claims that pass
`validateClaims` have passed it. -/
theorem checkExpiry_cases (w : AuthWorld) (claims : MapClaims) :
    (checkExpiry w claims = .error "token expired" ↔
      ∃ exp, claims "exp" = some (.num exp) ∧ Time.Unix w.now > int64OfFloat64 w exp) ∧
    (checkExpiry w claims = .error "expiration claim not found" ↔
      ∀ exp, claims "exp" ≠ some (.num exp)) ∧
    (checkExpiry w claims = .ok () ↔
      ∃ exp, claims "exp" = some (.num exp) ∧ Time.Unix w.now ≤ int64OfFloat64 w exp) ∧
    (∀ exp, claims "exp" = some (.num exp) → int64OfFloat64 w exp = Time.Unix w.now →
      checkExpiry w claims = .ok ()) ∧
    (∀ config user, validateClaims w claims config = .ok user →
      ∃ exp, claims "exp" = some (.num exp) ∧ Time.Unix w.now ≤ int64OfFloat64 w exp) := by
  have hok : checkExpiry w claims = .ok () ↔
      ∃ exp, claims "exp" = some (.num exp) ∧ Time.Unix w.now ≤ int64OfFloat64 w exp := by
    unfold checkExpiry
    split
    · next exp heq =>
      by_cases h : Time.Unix w.now > int64OfFloat64 w exp
      · simp only [h, if_true, reduceCtorEq, false_iff, not_exists, not_and, not_le]
        intro exp2 h2
        rw [heq] at h2
        cases h2
        exact h
      · simp only [h, if_false, true_iff]
        exact ⟨exp, heq, not_lt.mp h⟩
    · next hnum =>
      simp only [reduceCtorEq, false_iff, not_exists, not_and]
      intro exp h2
      exact absurd h2 (hnum exp)
  refine ⟨?_, ?_, hok, ?_, ?_⟩
  · unfold checkExpiry
    split
    · next exp heq =>
      by_cases h : Time.Unix w.now > int64OfFloat64 w exp
      · simp only [h, if_true, true_iff]
        exact ⟨exp, heq, h⟩
      · simp only [h, if_false, reduceCtorEq, false_iff, not_exists, not_and]
        intro exp2 h2
        rw [heq] at h2
        cases h2
        exact h
    · next hnum =>
      have hne : ¬ ("expiration claim not found" = "token expired") := by decide
      simp only [Except.error.injEq, hne, false_iff, not_exists, not_and]
      intro exp h2
      exact absurd h2 (hnum exp)
  · unfold checkExpiry
    split
    · next exp heq =>
      have hne : ¬ ("token expired" = "expiration claim not found") := by decide
      constructor
      · intro h
        split at h
        · simp only [Except.error.injEq] at h
          exact absurd h hne
        · simp at h
      · intro h
        exact absurd heq (h exp)
    · next hnum =>
      simp only [true_iff]
      intro exp h2
      exact hnum exp h2
  · intro exp hexp heq
    exact hok.mpr ⟨exp, hexp, le_of_eq heq.symm⟩
  · intro config user hv
    apply hok.mp
    unfold validateClaims at hv
    cases ha : checkAudience claims config with
    | error e => rw [ha] at hv; simp at hv
    | ok u1 =>
      rw [ha] at hv
      dsimp only at hv
      cases hi : checkIssuer claims config with
      | error e => rw [hi] at hv; simp at hv
      | ok u2 =>
        rw [hi] at hv
        dsimp only at hv
        cases hx : checkExpiry w claims with
        | error e => rw [hx] at hv; simp at hv
        | ok u3 => rfl

/-! ## The expiry, as validateToken decides it -/

theorem jwtParse_ok {w : AuthWorld} {tokenString : String}
    {keyfunc : Token → Except String PublicKey × List AuthEvent} {verified : Token}
    {ev : List AuthEvent} (h : jwtParse w tokenString keyfunc = (.ok verified, ev)) :
    ∃ token key, w.parseUnverified tokenString = .ok token ∧
      (keyfunc token).1 = .ok key ∧ w.verify token key = .ok verified := by
  unfold jwtParse at h
  cases hp : w.parseUnverified tokenString with
  | error e => rw [hp] at h; simp at h
  | ok token =>
    rw [hp] at h
    dsimp only at h
    cases hk : keyfunc token with
    | mk res ev0 =>
      rw [hk] at h
      cases res with
      | error e => simp at h
      | ok key =>
        dsimp only at h
        cases hver : w.verify token key with
        | error e => rw [hver] at h; simp at h
        | ok verified2 =>
          rw [hver] at h
          simp only [Prod.mk.injEq, Except.ok.injEq] at h
          exact ⟨token, key, rfl, by rw [hk], by rw [← h.1, hver]⟩

theorem validateToken_of_parse_error {w : AuthWorld} {config : Auth0Config}
    {tokenString : String} {e : String}
    (h : (jwtParse w tokenString (keyFunc w config)).1 = .error e) :
    (validateToken w tokenString config).1 = .error e := by
  unfold validateToken
  cases hp : jwtParse w tokenString (keyFunc w config) with
  | mk res ev =>
    rw [hp] at h
    simp only at h
    subst h
    rfl

theorem validateToken_ok {w : AuthWorld} {config : Auth0Config} {tokenString : String}
    {user : UserInfo} (h : (validateToken w tokenString config).1 = .ok user) :
    ∃ verified ev claims, jwtParse w tokenString (keyFunc w config) = (.ok verified, ev) ∧
      verified.Claims = some claims ∧ verified.Valid = true ∧
      validateClaims w claims config = .ok user := by
  unfold validateToken at h
  cases hp : jwtParse w tokenString (keyFunc w config) with
  | mk res ev =>
    rw [hp] at h
    cases res with
    | error e => simp at h
    | ok verified =>
      dsimp only at h
      cases hc : verified.Claims with
      | none => rw [hc] at h; simp at h
      | some claims =>
        cases hvalid : verified.Valid with
        | false => rw [hc, hvalid] at h; simp at h
        | true =>
          rw [hc, hvalid] at h
          exact ⟨verified, ev, claims, rfl, hc, hvalid, h⟩

theorem jwtVerifyExpiresAt_ok {parsedAt : Time} {claims : MapClaims}
    (h : jwtVerifyExpiresAt parsedAt claims = .ok ()) :
    claims "exp" = none ∨
    ∃ exp, claims "exp" = some (.num exp) ∧
      (exp = 0 ∨ (parsedAt : Int) < Rat.floor exp * 1000000000) := by
  unfold jwtVerifyExpiresAt at h
  split at h
  · next heq => exact Or.inl heq
  · next exp heq =>
    right
    refine ⟨exp, heq, ?_⟩
    by_cases h0 : exp = 0
    · exact Or.inl h0
    · right
      simp only [h0, if_false] at h
      split at h
      · next hlt => exact hlt
      · simp at h
  · simp at h

theorem int64OfFloat64_zero (w : AuthWorld) : int64OfFloat64 w 0 = 0 := by
  simp [int64OfFloat64]

theorem Time.Unix_mono {a b : Time} (h : a ≤ b) : Time.Unix a ≤ Time.Unix b := by
  unfold Time.Unix
  exact_mod_cast Nat.div_le_div_right h

theorem Time.Unix_lt_of_lt_seconds {t : Time} {k : Int}
    (h : (t : Int) < k * 1000000000) : Time.Unix t < k := by
  unfold Time.Unix
  omega

/-- The `exp` of a token `validateToken` accepted, in a world whose library
validated it at `parsedAt`. -/
theorem validateToken_ok_expiry {w : AuthWorld} {parsedAt : Time} {config : Auth0Config}
    {tokenString : String} {user : UserInfo}
    (hlib : ValidatesLikeJWT w parsedAt) (hord : parsedAt ≤ w.now)
    (hclock : 0 < Time.Unix parsedAt)
    (h : (validateToken w tokenString config).1 = .ok user) :
    ∃ token claims exp, w.parseUnverified tokenString = .ok token ∧
      token.Claims = some claims ∧ claims "exp" = some (.num exp) ∧
      Time.Unix parsedAt < Rat.floor exp ∧ Time.Unix w.now ≤ int64OfFloat64 w exp := by
  obtain ⟨verified, ev, claims, hparse, hclaims, -, hvc⟩ := validateToken_ok h
  obtain ⟨token, key, hpu, -, hver⟩ := jwtParse_ok hparse
  obtain ⟨hsame, hexp⟩ := hlib token key verified hver
  rw [hsame] at hclaims
  obtain ⟨exp, hnum, hle⟩ := (checkExpiry_cases w claims).2.2.2.2 config user hvc
  refine ⟨token, claims, exp, hpu, hclaims, hnum, ?_, hle⟩
  rcases jwtVerifyExpiresAt_ok (hexp claims hclaims) with hnone | ⟨exp2, hnum2, hz | hlt⟩
  · rw [hnone] at hnum
    cases hnum
  · rw [hnum] at hnum2
    simp only [Option.some.injEq, JSONValue.num.injEq] at hnum2
    subst hnum2
    subst hz
    rw [int64OfFloat64_zero] at hle
    have := Time.Unix_mono hord
    omega
  · rw [hnum] at hnum2
    simp only [Option.some.injEq, JSONValue.num.injEq] at hnum2
    subst hnum2
    exact Time.Unix_lt_of_lt_seconds hlt

/-- Counterexample to C6 as stated: the token's `exp` is the text
`1800000000`, not a number. `validateToken` rejects it with the error of
`jwt.Parse` for an invalid claim, not with the missing-expiry error; the
missing-expiry error is what a token without `exp` gets. -/
theorem non_numeric_exp_is_invalid_claim :
    (validateToken sampleAuthWorld "exp-as-text" sampleConfig).1
      = .error "token has invalid claims: invalid type for claim: exp is invalid" ∧
    (validateToken sampleAuthWorld "exp-as-text" sampleConfig).1
      ≠ .error "expiration claim not found" ∧
    (validateToken sampleAuthWorld "no-exp" sampleConfig).1
      = .error "expiration claim not found" :=
  by
  have h1 : (validateToken sampleAuthWorld "exp-as-text" sampleConfig).1
      = .error "token has invalid claims: invalid type for claim: exp is invalid" := rfl
  refine ⟨h1, ?_, rfl⟩
  rw [h1]
  intro h
  simp only [Except.error.injEq] at h
  exact absurd h (by decide)

/-- C6, amended. In a world whose `jwt.Parse` validates the expiry as
golang-jwt v5 does, at a clock reading `parsedAt` not after the code's own and
past the first second of the epoch: a token `validateToken` accepts has a
numeric `exp` whose whole seconds are strictly greater than the Unix time at
`parsedAt` (and not less than the Unix time of the code's own check); a token
whose numeric `exp` is equal to, or before, the current second is rejected,
by `jwt.Parse` itself unless `exp` is 0; a token whose `exp` is not a number
is rejected by `jwt.Parse` itself, with its error; and among the tokens `jwt.Parse` accepted and whose audience and issuer
pass, the error `expiration claim not found` is given exactly to those without
`exp`. -/
theorem expiry_strictly_after_now (w : AuthWorld) (parsedAt : Time) (config : Auth0Config)
    (tokenString : String) (hlib : ValidatesLikeJWT w parsedAt) (hord : parsedAt ≤ w.now)
    (hclock : 0 < Time.Unix parsedAt) :
    (∀ user, (validateToken w tokenString config).1 = .ok user →
      ∃ token claims exp, w.parseUnverified tokenString = .ok token ∧
        token.Claims = some claims ∧ claims "exp" = some (.num exp) ∧
        Time.Unix parsedAt < Rat.floor exp ∧ Time.Unix w.now ≤ int64OfFloat64 w exp) ∧
    (∀ token claims exp, w.parseUnverified tokenString = .ok token →
      token.Claims = some claims → claims "exp" = some (.num exp) →
      Rat.floor exp ≤ Time.Unix parsedAt →
      (∃ e, (validateToken w tokenString config).1 = .error e) ∧
      (exp ≠ 0 → ∃ e, (jwtParse w tokenString (keyFunc w config)).1 = .error e ∧
        (validateToken w tokenString config).1 = .error e)) ∧
    (∀ token claims v, w.parseUnverified tokenString = .ok token →
      token.Claims = some claims → claims "exp" = some v → (∀ exp, v ≠ .num exp) →
      ∃ e, (jwtParse w tokenString (keyFunc w config)).1 = .error e ∧
        (validateToken w tokenString config).1 = .error e) ∧
    (∀ verified ev claims, jwtParse w tokenString (keyFunc w config) = (.ok verified, ev) →
      verified.Claims = some claims → verified.Valid = true →
      checkAudience claims config = .ok () → checkIssuer claims config = .ok () →
      ((validateToken w tokenString config).1 = .error "expiration claim not found"
        ↔ claims "exp" = none)) := by
  refine ⟨fun user h => validateToken_ok_expiry hlib hord hclock h, ?_, ?_, ?_⟩
  · intro token claims exp hpu hclaims hnum hfloor
    constructor
    · cases hres : (validateToken w tokenString config).1 with
      | error e => exact ⟨e, rfl⟩
      | ok user =>
        obtain ⟨token2, claims2, exp2, hpu2, hclaims2, hnum2, hlt, -⟩ :=
          validateToken_ok_expiry hlib hord hclock hres
        rw [hpu] at hpu2
        simp only [Except.ok.injEq] at hpu2
        subst hpu2
        rw [hclaims] at hclaims2
        simp only [Option.some.injEq] at hclaims2
        subst hclaims2
        rw [hnum] at hnum2
        simp only [Option.some.injEq, JSONValue.num.injEq] at hnum2
        subst hnum2
        omega
    · intro hnz
      cases hres : jwtParse w tokenString (keyFunc w config) with
      | mk res ev =>
        cases res with
        | error e =>
          refine ⟨e, rfl, ?_⟩
          apply validateToken_of_parse_error
          rw [hres]
        | ok verified =>
          obtain ⟨token2, key, hpu2, -, hver⟩ := jwtParse_ok hres
          rw [hpu] at hpu2
          simp only [Except.ok.injEq] at hpu2
          subst hpu2
          obtain ⟨-, hexp⟩ := hlib token key verified hver
          rcases jwtVerifyExpiresAt_ok (hexp claims hclaims) with hnone | ⟨exp2, hnum2, hz | hlt⟩
          · rw [hnone] at hnum
            cases hnum
          · rw [hnum] at hnum2
            simp only [Option.some.injEq, JSONValue.num.injEq] at hnum2
            subst hnum2
            exact absurd hz hnz
          · rw [hnum] at hnum2
            simp only [Option.some.injEq, JSONValue.num.injEq] at hnum2
            subst hnum2
            have := Time.Unix_lt_of_lt_seconds hlt
            omega
  · intro token claims v hpu hclaims hv hnot
    cases hres : jwtParse w tokenString (keyFunc w config) with
    | mk res ev =>
      cases res with
      | error e =>
        refine ⟨e, rfl, ?_⟩
        apply validateToken_of_parse_error
        rw [hres]
      | ok verified =>
        obtain ⟨token2, key, hpu2, -, hver⟩ := jwtParse_ok hres
        rw [hpu] at hpu2
        simp only [Except.ok.injEq] at hpu2
        subst hpu2
        obtain ⟨-, hexp⟩ := hlib token key verified hver
        rcases jwtVerifyExpiresAt_ok (hexp claims hclaims) with hnone | ⟨exp, hnum, -⟩
        · rw [hnone] at hv
          cases hv
        · rw [hnum] at hv
          simp only [Option.some.injEq] at hv
          exact absurd hv.symm (hnot exp)
  · intro verified ev claims hparse hclaims hvalid haud hiss
    rw [validateToken_of_parse hparse hclaims hvalid]
    show validateClaims w claims config = .error "expiration claim not found" ↔ _
    obtain ⟨token, key, -, -, hver⟩ := jwtParse_ok hparse
    obtain ⟨hsame, hexp⟩ := hlib token key verified hver
    rw [hsame] at hclaims
    have hshape := jwtVerifyExpiresAt_ok (hexp claims hclaims)
    obtain ⟨-, hmissing, -, -, -⟩ := checkExpiry_cases w claims
    constructor
    · intro h
      rcases validateClaims_error w claims config _ h with h1 | ⟨-, h2⟩ | ⟨-, -, h3⟩ | ⟨-, -, -, h4⟩
      · rw [haud] at h1
        cases h1
      · rw [hiss] at h2
        cases h2
      · rcases hshape with hnone | ⟨exp, hnum, -⟩
        · exact hnone
        · exact absurd hnum (hmissing.mp h3 exp)
      · exact absurd h4 (by decide)
    · intro hnone
      have hx : checkExpiry w claims = .error "expiration claim not found" := by
        apply hmissing.mpr
        intro exp hnum
        rw [hnone] at hnum
        cases hnum
      unfold validateClaims
      rw [haud, hiss]
      dsimp only
      rw [hx]

theorem sampleAuthWorld_validates : ValidatesLikeJWT sampleAuthWorld sampleAuthWorld.now := by
  intro token key verified h
  simp only [sampleAuthWorld] at h
  cases hc : token.Claims with
  | none =>
    rw [hc] at h
    simp only [Except.ok.injEq] at h
    subst h
    exact ⟨rfl, fun claims h2 => by cases h2⟩
  | some claims =>
    rw [hc] at h
    dsimp only at h
    cases hx : jwtVerifyExpiresAt 1700000000000000000 claims with
    | error e => rw [hx] at h; simp at h
    | ok u =>
      rw [hx] at h
      simp only [Except.ok.injEq] at h
      subst h
      refine ⟨rfl, ?_⟩
      intro claims2 h2
      simp only [Option.some.injEq] at h2
      subst h2
      exact hx

/-- Witness of C6, amended: the clock reads 1 700 000 000 s and the token's
`exp` is 1 700 000 000; `validateToken` rejects it, with the expiry error of
`jwt.Parse`. -/
theorem expiry_strictly_after_now_witness :
    (∃ e, (validateToken sampleAuthWorld "expires-now" sampleConfig).1 = .error e) ∧
    (validateToken sampleAuthWorld "expires-now" sampleConfig).1
      = .error "token has invalid claims: token is expired" :=
  ⟨((expiry_strictly_after_now sampleAuthWorld sampleAuthWorld.now sampleConfig "expires-now"
      sampleAuthWorld_validates (le_refl _) (by decide)).2.1
      (sampleToken "k1" (sampleClaims (.str "api") 1700000000))
      (sampleClaims (.str "api") 1700000000) 1700000000 rfl rfl rfl (by decide)).1, rfl⟩

/-! ## Key lookup -/

theorem findKeyIn_eq_none_iff (keys : List JSONWebKey) (kid : String) :
    findKeyIn keys kid = none ↔ ∀ k ∈ keys, k.Kid ≠ kid := by
  induction keys with
  | nil => simp [findKeyIn]
  | cons key rest ih =>
    by_cases h : key.Kid = kid
    · simp [findKeyIn, h]
    · simp [findKeyIn, h, ih]

theorem findKeyIn_some (keys : List JSONWebKey) (kid : String) (key : JSONWebKey)
    (h : findKeyIn keys kid = some key) :
    ∃ before after, keys = before ++ key :: after ∧ key.Kid = kid ∧
      ∀ k ∈ before, k.Kid ≠ kid := by
  induction keys with
  | nil => simp [findKeyIn] at h
  | cons k0 rest ih =>
    by_cases hk : k0.Kid = kid
    · simp only [findKeyIn, hk, if_true, Option.some.injEq] at h
      subst h
      exact ⟨[], rest, rfl, hk, by simp⟩
    · simp only [findKeyIn, hk, if_false] at h
      obtain ⟨before, after, heq, hkid, hbefore⟩ := ih h
      refine ⟨k0 :: before, after, by rw [heq]; rfl, hkid, ?_⟩
      intro k hmem
      rcases List.mem_cons.mp hmem with rfl | hmem
      · exact hk
      · exact hbefore k hmem

/-- C7. `findKey` returns no key exactly when no key of the set has the
requested `kid`, and a key it returns is the first of the list with that
`kid`. When the key set was fetched and holds no such key, the key function
fails with `unable to find appropriate key` after the fetch alone, and
`validateToken` fails on any token string that decodes to that token with the
same single event: no `convertKey`, no signature verification. -/
theorem findKey_first_match_or_not_found (jwks : JWKS) (kid : String) :
    (findKey jwks kid = none ↔ ∀ k ∈ jwks.Keys, k.Kid ≠ kid) ∧
    (∀ key, findKey jwks kid = some key →
      ∃ before after, jwks.Keys = before ++ key :: after ∧ key.Kid = kid ∧
        ∀ k ∈ before, k.Kid ≠ kid) ∧
    (∀ (w : AuthWorld) (config : Auth0Config) (token : Token),
      token.Method = SigningMethod.RSA → token.Header "kid" = some (.str kid) →
      (fetchJWKS w config.Domain).1 = .ok jwks → findKey jwks kid = none →
      keyFunc w config token
        = (.error "unable to find appropriate key",
           [AuthEvent.fetchJWKS ("https://" ++ config.Domain ++ "/.well-known/jwks.json")]) ∧
      ∀ tokenString, w.parseUnverified tokenString = .ok token →
        validateToken w tokenString config
          = (.error (w.keyfuncError "unable to find appropriate key"),
             [AuthEvent.fetchJWKS
               ("https://" ++ config.Domain ++ "/.well-known/jwks.json")])) := by
  refine ⟨findKeyIn_eq_none_iff _ _, findKeyIn_some _ _, ?_⟩
  intro w config token hmethod hkid hfetch hnone
  have hev : (fetchJWKS w config.Domain).2
      = [AuthEvent.fetchJWKS ("https://" ++ config.Domain ++ "/.well-known/jwks.json")] := by
    unfold fetchJWKS
    dsimp only
    split
    · rfl
    · split <;> rfl
  have hf : fetchJWKS w config.Domain = (.ok jwks,
      [AuthEvent.fetchJWKS ("https://" ++ config.Domain ++ "/.well-known/jwks.json")]) :=
    Prod.ext hfetch hev
  have hkey : keyFunc w config token
      = (.error "unable to find appropriate key",
         [AuthEvent.fetchJWKS ("https://" ++ config.Domain ++ "/.well-known/jwks.json")]) := by
    unfold keyFunc
    simp only [hmethod, ne_eq, not_true_eq_false, if_false, hkid, hf, hnone]
  refine ⟨hkey, ?_⟩
  intro tokenString hparse
  unfold validateToken jwtParse
  simp only [hparse, hkey]

/-! ## The middleware -/

theorem splitChars_of_not_mem (sep : Char) (l cur : List Char) (h : sep ∉ l) :
    splitChars sep l cur = [String.mk (cur.reverse ++ l)] := by
  induction l generalizing cur with
  | nil => simp [splitChars]
  | cons c rest ih =>
    have hc : ¬ c = sep := fun hh => h (by rw [hh]; exact List.mem_cons_self _ _)
    have hrest : sep ∉ rest := fun hh => h (List.mem_cons_of_mem _ hh)
    simp [splitChars, hc, ih (c :: cur) hrest]

theorem splitChars_append_sep (sep : Char) (a b cur : List Char) (h : sep ∉ a) :
    splitChars sep (a ++ sep :: b) cur
      = String.mk (cur.reverse ++ a) :: splitChars sep b [] := by
  induction a generalizing cur with
  | nil => simp [splitChars]
  | cons c rest ih =>
    have hc : ¬ c = sep := fun hh => h (by rw [hh]; exact List.mem_cons_self _ _)
    have hrest : sep ∉ rest := fun hh => h (List.mem_cons_of_mem _ hh)
    simp [splitChars, hc, ih (c :: cur) hrest]

theorem splitChars_length (sep : Char) (l cur : List Char) :
    (splitChars sep l cur).length = l.count sep + 1 := by
  induction l generalizing cur with
  | nil => simp [splitChars]
  | cons c rest ih =>
    by_cases hc : c = sep
    · subst hc
      simp [splitChars, ih]
    · simp [splitChars, hc, ih, List.count_cons]

/-- The header shape `Middleware` accepts, said without `strings.Split`: the
header is `Bearer`, one space, and a token without a space. -/
theorem Split_bearer_iff (authHeader tok : String) :
    Split authHeader ' ' = ["Bearer", tok] ↔
      (authHeader = "Bearer " ++ tok ∧ ' ' ∉ tok.toList) := by
  constructor
  · intro h
    have hlen := splitChars_length ' ' authHeader.toList []
    unfold Split at h
    rw [h] at hlen
    simp only [List.length_cons, List.length_nil, zero_add, Nat.reduceAdd,
      Nat.add_right_cancel_iff] at hlen
    have hmem : ' ' ∈ authHeader.toList := by
      apply List.count_pos_iff.mp
      omega
    obtain ⟨a, b, hab, hnota⟩ := List.eq_append_cons_of_mem hmem
    have hnotb : ' ' ∉ b := by
      intro hb
      have h1 : (a ++ ' ' :: b).count ' ' = 1 := by rw [← hab]; omega
      have h2 : 0 < b.count ' ' := List.count_pos_iff.mpr hb
      simp only [List.count_append, List.count_cons_self] at h1
      omega
    rw [hab, splitChars_append_sep _ _ _ _ hnota, splitChars_of_not_mem _ _ _ hnotb] at h
    simp only [List.reverse_nil, List.nil_append, List.cons.injEq, and_true] at h
    obtain ⟨ha, hb⟩ := h
    have hb2 : b = tok.toList := by rw [← hb]; rfl
    have ha2 : a = "Bearer".toList := by rw [← ha]; rfl
    constructor
    · apply String.ext
      show authHeader.toList = ("Bearer " ++ tok).toList
      rw [hab, ha2, hb2]
      simp
    · rw [← hb2]
      exact hnotb
  · rintro ⟨h, hnot⟩
    unfold Split
    have hl : authHeader.toList = "Bearer".toList ++ ' ' :: tok.toList := by
      rw [h]
      simp
    rw [hl, splitChars_append_sep _ _ _ _ (by decide), splitChars_of_not_mem _ _ _ hnot]
    rfl

theorem fetchJWKS_events (w : AuthWorld) (domain : String) :
    ∀ e ∈ (fetchJWKS w domain).2, e.isInner = true := by
  unfold fetchJWKS
  dsimp only
  split
  · simp [AuthEvent.isInner]
  · split <;> simp [AuthEvent.isInner]

theorem keyFunc_events (w : AuthWorld) (config : Auth0Config) (token : Token) :
    ∀ e ∈ (keyFunc w config token).2, e.isInner = true := by
  unfold keyFunc
  have hf := fetchJWKS_events w config.Domain
  split
  · simp
  · split
    · split
      · next e1 ev heq => rw [heq] at hf; exact hf
      · next jwks ev heq =>
        rw [heq] at hf
        split
        · exact hf
        · intro e he
          rcases List.mem_append.mp he with h1 | h1
          · exact hf e h1
          · simp only [List.mem_singleton] at h1
            subst h1
            rfl
    · simp

theorem jwtParse_events (w : AuthWorld) (config : Auth0Config) (tokenString : String) :
    ∀ e ∈ (jwtParse w tokenString (keyFunc w config)).2, e.isInner = true := by
  unfold jwtParse
  split
  · simp
  · next token hparse =>
    have hk := keyFunc_events w config token
    split
    · next e1 ev heq => rw [heq] at hk; exact hk
    · next key ev heq =>
      rw [heq] at hk
      have hboth : ∀ e ∈ ev ++ [AuthEvent.verifySignature key], e.isInner = true := by
        intro e he
        rcases List.mem_append.mp he with h1 | h1
        · exact hk e h1
        · simp only [List.mem_singleton] at h1
          subst h1
          rfl
      split <;> exact hboth

theorem validateToken_events (w : AuthWorld) (config : Auth0Config) (tokenString : String) :
    ∀ e ∈ (validateToken w tokenString config).2, e.isInner = true := by
  unfold validateToken
  have hp := jwtParse_events w config tokenString
  split
  · next e1 ev heq => rw [heq] at hp; exact hp
  · next token ev heq =>
    rw [heq] at hp
    split <;> exact hp

/-- The two ways `Middleware` goes: either the header is not of the shape
`Bearer` plus one more part, and it answers 401 without doing anything, or it
is, and `validateToken` is called once on the second part. -/
theorem Middleware_cases (w : AuthWorld) (config : Auth0Config) (next : UserInfo → Reply)
    (authHeader : String) :
    ((¬ ∃ tok, authHeader ≠ "" ∧ Split authHeader ' ' = ["Bearer", tok]) ∧
      (Middleware w config next authHeader).1.Status = 401 ∧
      (Middleware w config next authHeader).2 = []) ∨
    (∃ tok, authHeader ≠ "" ∧ Split authHeader ' ' = ["Bearer", tok] ∧
      ((∃ e, (validateToken w tok config).1 = .error e ∧
          Middleware w config next authHeader
            = ({ Status := 401, Body := "Invalid token: " ++ e ++ "\n" },
               AuthEvent.validateToken tok :: (validateToken w tok config).2)) ∨
       (∃ user, (validateToken w tok config).1 = .ok user ∧
          Middleware w config next authHeader
            = (next user,
               AuthEvent.validateToken tok ::
                 ((validateToken w tok config).2 ++ [AuthEvent.serveHTTP user]))))) := by
  unfold Middleware
  by_cases hempty : authHeader = ""
  · left
    simp [hempty]
  · simp only [hempty, if_false]
    split
    · next scheme tok hsplit =>
      by_cases hscheme : scheme = "Bearer"
      · right
        subst hscheme
        refine ⟨tok, hempty, hsplit, ?_⟩
        simp only [ne_eq, not_true_eq_false, if_false]
        cases hv : validateToken w tok config with
        | mk res ev =>
          cases res with
          | error e => exact Or.inl ⟨e, rfl, rfl⟩
          | ok user => exact Or.inr ⟨user, rfl, rfl⟩
      · left
        simp only [ne_eq, hscheme, not_false_eq_true, if_true, and_self, and_true]
        rintro ⟨tok2, -, h2⟩
        rw [hsplit] at h2
        simp only [List.cons.injEq, and_true] at h2
        exact hscheme h2.1
    · next hshape =>
      left
      simp only [and_self, and_true]
      rintro ⟨tok2, -, h2⟩
      exact hshape _ _ h2

/-- C8. `Middleware` calls `validateToken` at most once; it calls it on `tok`
exactly when the `Authorization` header is not empty and splits on the space
into the two parts `Bearer` and `tok`; for any other header it answers 401 and
does nothing else; and the downstream handler is invoked exactly when
`validateToken` succeeded, with the identity it returned, its reply being the
response. The accepted shape is `Bearer`, one space, and a token without a
space. -/
theorem middleware_validates_once (w : AuthWorld) (config : Auth0Config)
    (next : UserInfo → Reply) (authHeader : String) :
    ((Middleware w config next authHeader).2.filter AuthEvent.isValidateToken).length ≤ 1 ∧
    (∀ tok, AuthEvent.validateToken tok ∈ (Middleware w config next authHeader).2 ↔
      (authHeader ≠ "" ∧ Split authHeader ' ' = ["Bearer", tok])) ∧
    ((¬ ∃ tok, authHeader ≠ "" ∧ Split authHeader ' ' = ["Bearer", tok]) →
      (Middleware w config next authHeader).1.Status = 401 ∧
      (Middleware w config next authHeader).2 = []) ∧
    (∀ user, AuthEvent.serveHTTP user ∈ (Middleware w config next authHeader).2 ↔
      ∃ tok, authHeader ≠ "" ∧ Split authHeader ' ' = ["Bearer", tok] ∧
        (validateToken w tok config).1 = .ok user) ∧
    (∀ tok user, authHeader ≠ "" → Split authHeader ' ' = ["Bearer", tok] →
      (validateToken w tok config).1 = .ok user →
      (Middleware w config next authHeader).1 = next user) ∧
    (∀ tok, Split authHeader ' ' = ["Bearer", tok] ↔
      (authHeader = "Bearer " ++ tok ∧ ' ' ∉ tok.toList)) := by
  rw [← and_assoc, ← and_assoc, ← and_assoc, ← and_assoc]
  refine ⟨?_, fun tok => Split_bearer_iff authHeader tok⟩
  rw [and_assoc, and_assoc, and_assoc]
  have hinner : ∀ tok, ∀ e ∈ (validateToken w tok config).2,
      e.isValidateToken = false ∧ (∀ t, e ≠ AuthEvent.validateToken t) ∧
      ∀ u, e ≠ AuthEvent.serveHTTP u := by
    intro tok e he
    have h := validateToken_events w config tok e he
    cases e <;> simp_all [AuthEvent.isInner, AuthEvent.isValidateToken]
  have hfilter : ∀ tok, (validateToken w tok config).2.filter AuthEvent.isValidateToken = [] := by
    intro tok
    rw [List.filter_eq_nil_iff]
    intro e he
    rw [(hinner tok e he).1]
    simp
  rcases Middleware_cases w config next authHeader with
    ⟨hno, hstatus, hev⟩ | ⟨tok, hne, hsplit, ⟨e, hv, hm⟩ | ⟨user, hv, hm⟩⟩
  · refine ⟨by rw [hev]; simp, ?_, fun _ => ⟨hstatus, hev⟩, ?_, ?_⟩
    · intro tok
      rw [hev]
      simp only [List.not_mem_nil, false_iff]
      intro h
      exact hno ⟨tok, h⟩
    · intro user
      rw [hev]
      simp only [List.not_mem_nil, false_iff]
      rintro ⟨tok, h1, h2, -⟩
      exact hno ⟨tok, h1, h2⟩
    · intro tok user h1 h2 _
      exact absurd ⟨tok, h1, h2⟩ hno
  · have hsame : ∀ tok2, Split authHeader ' ' = ["Bearer", tok2] → tok2 = tok := by
      intro tok2 h2
      rw [hsplit] at h2
      simp only [List.cons.injEq, true_and, and_true] at h2
      exact h2.symm
    rw [hm]
    refine ⟨?_, ?_, ?_, ?_, ?_⟩
    · simp [List.filter_cons, AuthEvent.isValidateToken, hfilter]
    · intro tok2
      constructor
      · intro hmem
        rcases List.mem_cons.mp hmem with h1 | h1
        · simp only [AuthEvent.validateToken.injEq] at h1
          subst h1
          exact ⟨hne, hsplit⟩
        · exact absurd rfl ((hinner tok _ h1).2.1 tok2)
      · rintro ⟨-, h2⟩
        rw [hsame tok2 h2]
        exact List.mem_cons_self _ _
    · intro hno
      exact absurd ⟨tok, hne, hsplit⟩ hno
    · intro user
      constructor
      · intro hmem
        rcases List.mem_cons.mp hmem with h1 | h1
        · cases h1
        · exact absurd rfl ((hinner tok _ h1).2.2 user)
      · rintro ⟨tok2, -, h2, h3⟩
        rw [hsame tok2 h2, hv] at h3
        cases h3
    · intro tok2 user _ h2 h3
      rw [hsame tok2 h2, hv] at h3
      cases h3
  · have hsame : ∀ tok2, Split authHeader ' ' = ["Bearer", tok2] → tok2 = tok := by
      intro tok2 h2
      rw [hsplit] at h2
      simp only [List.cons.injEq, true_and, and_true] at h2
      exact h2.symm
    rw [hm]
    refine ⟨?_, ?_, ?_, ?_, ?_⟩
    · simp [List.filter_cons, List.filter_append, AuthEvent.isValidateToken, hfilter]
    · intro tok2
      constructor
      · intro hmem
        rcases List.mem_cons.mp hmem with h1 | h1
        · simp only [AuthEvent.validateToken.injEq] at h1
          subst h1
          exact ⟨hne, hsplit⟩
        · rcases List.mem_append.mp h1 with h2 | h2
          · exact absurd rfl ((hinner tok _ h2).2.1 tok2)
          · simp at h2
      · rintro ⟨-, h2⟩
        rw [hsame tok2 h2]
        exact List.mem_cons_self _ _
    · intro hno
      exact absurd ⟨tok, hne, hsplit⟩ hno
    · intro user2
      constructor
      · intro hmem
        rcases List.mem_cons.mp hmem with h1 | h1
        · cases h1
        · rcases List.mem_append.mp h1 with h2 | h2
          · exact absurd rfl ((hinner tok _ h2).2.2 user2)
          · simp only [List.mem_singleton, AuthEvent.serveHTTP.injEq] at h2
            subst h2
            exact ⟨tok, hne, hsplit, hv⟩
      · rintro ⟨tok2, -, h2, h3⟩
        rw [hsame tok2 h2, hv] at h3
        simp only [Except.ok.injEq] at h3
        subst h3
        simp
    · intro tok2 user2 _ h2 h3
      rw [hsame tok2 h2, hv] at h3
      simp only [Except.ok.injEq] at h3
      subst h3
      rfl

/-! ## What a rejected caller is told -/

/-- Counterexample to C10 as stated: two tokens reach `validateToken`, one is
rejected by the audience check and one, expired, by the claims validation of
`jwt.Parse`, and the two 401 bodies differ: each carries the text of the step
that failed. -/
theorem rejection_bodies_differ :
    (Middleware sampleAuthWorld sampleConfig sampleNext "Bearer other-audience").1
      = { Status := 401, Body := "Invalid token: invalid audience\n" } ∧
    (Middleware sampleAuthWorld sampleConfig sampleNext "Bearer expired").1
      = { Status := 401,
          Body := "Invalid token: token has invalid claims: token is expired\n" } ∧
    (Middleware sampleAuthWorld sampleConfig sampleNext "Bearer other-audience").1.Body
      ≠ (Middleware sampleAuthWorld sampleConfig sampleNext "Bearer expired").1.Body :=
  ⟨rfl, rfl, by decide⟩

theorem invalid_token_body_injective (e1 e2 : String)
    (h : "Invalid token: " ++ e1 ++ "\n" = "Invalid token: " ++ e2 ++ "\n") : e1 = e2 := by
  have hd := congrArg String.data h
  simp only [String.data_append, List.append_assoc] at hd
  have h2 := List.append_cancel_left hd
  have h3 := List.append_cancel_right h2
  exact String.ext h3

/-- C10, amended. A token that reaches `validateToken` and is rejected with
error text `e` gets status 401 and the body `Invalid token: ` followed by `e`
and a line feed, and the downstream handler is not invoked; so two rejected
tokens get the same body exactly when their error texts are the same. -/
theorem rejection_body_carries_error (w : AuthWorld) (config : Auth0Config)
    (next : UserInfo → Reply) (header1 header2 tok1 tok2 e1 e2 : String)
    (hne1 : header1 ≠ "") (hsplit1 : Split header1 ' ' = ["Bearer", tok1])
    (herr1 : (validateToken w tok1 config).1 = .error e1)
    (hne2 : header2 ≠ "") (hsplit2 : Split header2 ' ' = ["Bearer", tok2])
    (herr2 : (validateToken w tok2 config).1 = .error e2) :
    (Middleware w config next header1).1
      = { Status := 401, Body := "Invalid token: " ++ e1 ++ "\n" } ∧
    (Middleware w config next header2).1
      = { Status := 401, Body := "Invalid token: " ++ e2 ++ "\n" } ∧
    (∀ user, AuthEvent.serveHTTP user ∉ (Middleware w config next header1).2) ∧
    (∀ user, AuthEvent.serveHTTP user ∉ (Middleware w config next header2).2) ∧
    ((Middleware w config next header1).1.Body = (Middleware w config next header2).1.Body
      ↔ e1 = e2) := by
  have key : ∀ (header tok e : String), header ≠ "" → Split header ' ' = ["Bearer", tok] →
      (validateToken w tok config).1 = .error e →
      (Middleware w config next header).1
        = { Status := 401, Body := "Invalid token: " ++ e ++ "\n" } ∧
      ∀ user, AuthEvent.serveHTTP user ∉ (Middleware w config next header).2 := by
    intro header tok e hne hsplit herr
    have hsame : ∀ tok2, Split header ' ' = ["Bearer", tok2] → tok2 = tok := by
      intro tok2 h2
      rw [hsplit] at h2
      simp only [List.cons.injEq, true_and, and_true] at h2
      exact h2.symm
    constructor
    · rcases Middleware_cases w config next header with
        ⟨hno, -, -⟩ | ⟨tok2, -, hs2, ⟨e2, hv, hm⟩ | ⟨user, hv, -⟩⟩
      · exact absurd ⟨tok, hne, hsplit⟩ hno
      · rw [hsame tok2 hs2, herr] at hv
        simp only [Except.error.injEq] at hv
        rw [hm, hv]
      · rw [hsame tok2 hs2, herr] at hv
        cases hv
    · intro user hmem
      rcases Middleware_cases w config next header with
        ⟨-, -, hev⟩ | ⟨tok2, -, hs2, ⟨e2, -, hm⟩ | ⟨user2, hv, -⟩⟩
      · rw [hev] at hmem
        cases hmem
      · rw [hm] at hmem
        rcases List.mem_cons.mp hmem with h1 | h1
        · cases h1
        · have hin := validateToken_events w config tok2 _ h1
          simp [AuthEvent.isInner] at hin
      · rw [hsame tok2 hs2, herr] at hv
        cases hv
  obtain ⟨hb1, hn1⟩ := key header1 tok1 e1 hne1 hsplit1 herr1
  obtain ⟨hb2, hn2⟩ := key header2 tok2 e2 hne2 hsplit2 herr2
  refine ⟨hb1, hb2, hn1, hn2, ?_⟩
  rw [hb1, hb2]
  constructor
  · intro h
    exact invalid_token_body_injective e1 e2 h
  · intro h
    rw [h]

/-- Witness of C10, amended: the rejection for a wrong audience and the
rejection for expiry carry their own texts. -/
theorem rejection_body_carries_error_witness :
    (Middleware sampleAuthWorld sampleConfig sampleNext "Bearer other-audience").1.Body
      = "Invalid token: invalid audience\n" ∧
    (Middleware sampleAuthWorld sampleConfig sampleNext "Bearer expired").1.Body
      = "Invalid token: token has invalid claims: token is expired\n" := by
  obtain ⟨h1, h2, -⟩ := rejection_body_carries_error sampleAuthWorld sampleConfig sampleNext
    "Bearer other-audience" "Bearer expired" "other-audience" "expired"
    "invalid audience" "token has invalid claims: token is expired"
    (by decide) rfl rfl (by decide) rfl rfl
  exact ⟨by rw [h1]; rfl, by rw [h2]; rfl⟩

/-! ## Interleavings keep one record per id -/

theorem updateStep_cache (clock : Nat → Time) (w : World) (s : TokenExchangeService)
    (p : Pending) :
    (ExchangeToken.updateStep clock w s p).2.migrationCache = s.migrationCache ∨
    ∃ rec, (ExchangeToken.updateStep clock w s p).2.migrationCache
      = s.migrationCache.store p.migratedUser.ID rec := by
  cases hres : (ExchangeToken.updateStep clock w s p).1 with
  | error e => exact Or.inl (updateStep_error_sameLedger hres).1
  | ok r =>
    right
    have e1 : ExchangeToken.updateStep clock w s p
        = (.ok r, (ExchangeToken.updateStep clock w s p).2) := Prod.ext hres rfl
    obtain ⟨auth0User, s2, hframe, -, hs3⟩ := updateStep_ok e1
    rw [hs3]
    cases hm : p.migration with
    | none =>
      obtain ⟨hc, -⟩ := updateCache_absent clock s2 p auth0User hm
      exact ⟨_, by rw [hc, hframe.1]⟩
    | some m =>
      obtain ⟨hc, -⟩ := updateCache_present clock s2 p auth0User m hm
      exact ⟨_, by rw [hc, hframe.1]⟩

theorem Thread.step_keys_nodup (clock : Nat → Time) (s : TokenExchangeService) (t : Thread)
    (h : (s.migrationCache.map Prod.fst).Nodup) :
    ((t.step clock s).2.migrationCache.map Prod.fst).Nodup := by
  cases t with
  | start w passageToken =>
    have hl := lookupStep_sameLedger w s passageToken
    simp only [Thread.step]
    split
    · next e s1 heq => rw [heq] at hl; rw [hl.1]; exact h
    · next p s1 heq => rw [heq] at hl; rw [hl.1]; exact h
  | lookedUp w p =>
    simp only [Thread.step]
    rcases updateStep_cache clock w s p with hc | ⟨rec, hc⟩
    · rw [hc]; exact h
    · rw [hc]; exact MigrationCache.keys_store_nodup _ _ _ h
  | done r => exact h

/-- Whatever the interleaving of two calls, the ledger never holds two
records under one legacy id. -/
theorem runSchedule_keys_nodup (clock : Nat → Time) (schedule : List Bool) :
    ∀ c : Concurrent, (c.service.migrationCache.map Prod.fst).Nodup →
      ((runSchedule clock schedule c).service.migrationCache.map Prod.fst).Nodup := by
  induction schedule with
  | nil => intro c h; exact h
  | cons b rest ih =>
    intro c h
    cases b with
    | false => exact ih _ (Thread.step_keys_nodup clock c.service c.first h)
    | true => exact ih _ (Thread.step_keys_nodup clock c.service c.second h)

/-! ## Find or create -/

theorem findUserByEmail_trace (w : World) (s : TokenExchangeService)
    (mgmtToken email : String) :
    (findUserByEmail w s mgmtToken email).2
      = record s (Call.Do (searchRequest s.auth0Issuer mgmtToken email)) := by
  unfold findUserByEmail searchRequest
  dsimp only
  split
  · rfl
  · split
    · rfl
    · split
      · rfl
      · split <;> rfl

theorem findUserByEmail_some_iff (w : World) (s : TokenExchangeService)
    (mgmtToken email : String) (user : Auth0User) :
    (findUserByEmail w s mgmtToken email).1 = .ok (some user) ↔
      ∃ resp rest, w.Do (searchRequest s.auth0Issuer mgmtToken email) = .ok resp ∧
        resp.StatusCode = 200 ∧ w.decodeUsers resp.Body = .ok (user :: rest) := by
  unfold findUserByEmail searchRequest
  dsimp only
  cases hdo : w.Do _ with
  | error e => simp
  | ok resp =>
    dsimp only
    by_cases hst : resp.StatusCode = 200
    · simp only [hst, ne_eq, not_true_eq_false, if_false]
      cases hdec : w.decodeUsers resp.Body with
      | error e => simp [hdec, hst]
      | ok users =>
        cases users with
        | nil => simp [hdec, hst]
        | cons u rest => simp [hdec, hst]
    · simp [hst]

/-- When the search returns an account, `FindOrCreateUser` returns it as it
is, and the search request is the only request sent. -/
theorem FindOrCreateUser_found (clock : Nat → Time) (w : World) (s : TokenExchangeService)
    (mgmtToken email : String) (emailVerified : Bool) (user : Auth0User)
    (h : (findUserByEmail w (record s (Call.FindOrCreateUser mgmtToken email emailVerified))
        mgmtToken email).1 = .ok (some user)) :
    (FindOrCreateUser clock w s mgmtToken email emailVerified).1 = .ok user ∧
    (FindOrCreateUser clock w s mgmtToken email emailVerified).2.trace
      = s.trace ++ [Call.FindOrCreateUser mgmtToken email emailVerified,
                    Call.Do (searchRequest s.auth0Issuer mgmtToken email)] ∧
    (FindOrCreateUser clock w s mgmtToken email emailVerified).2.clockReads = s.clockReads := by
  have htr := findUserByEmail_trace w
    (record s (Call.FindOrCreateUser mgmtToken email emailVerified)) mgmtToken email
  unfold FindOrCreateUser
  dsimp only
  cases hf : findUserByEmail w (record s (Call.FindOrCreateUser mgmtToken email emailVerified))
      mgmtToken email with
  | mk res s1 =>
    rw [hf] at h htr
    simp only at h htr
    subst h
    subst htr
    simp [record]

/-- When the search does not return an account, be it because it found none
or because it failed, `FindOrCreateUser` goes on to `createUser`. -/
theorem FindOrCreateUser_not_found (clock : Nat → Time) (w : World)
    (s : TokenExchangeService) (mgmtToken email : String) (emailVerified : Bool)
    (h : ∀ user, (findUserByEmail w
        (record s (Call.FindOrCreateUser mgmtToken email emailVerified))
        mgmtToken email).1 ≠ .ok (some user)) :
    FindOrCreateUser clock w s mgmtToken email emailVerified
      = createUser clock w
          (record (record s (Call.FindOrCreateUser mgmtToken email emailVerified))
            (Call.Do (searchRequest s.auth0Issuer mgmtToken email)))
          mgmtToken email emailVerified := by
  have htr := findUserByEmail_trace w
    (record s (Call.FindOrCreateUser mgmtToken email emailVerified)) mgmtToken email
  unfold FindOrCreateUser
  dsimp only
  cases hf : findUserByEmail w (record s (Call.FindOrCreateUser mgmtToken email emailVerified))
      mgmtToken email with
  | mk res s1 =>
    rw [hf] at h htr
    simp only at h htr
    subst htr
    split
    · next user s2 heq =>
      simp only [Prod.mk.injEq] at heq
      exact absurd heq.1 (h user)
    · next r s2 hne heq =>
      simp only [Prod.mk.injEq] at heq
      rw [← heq.2]
      rfl

/-- C11. The user search answers 500. `findUserByEmail` returns an error,
and `FindOrCreateUser` nevertheless sends the create request and returns the
created account: the failed search is treated as "not found". -/
theorem failed_search_still_creates :
    (findUserByEmail searchFailsWorld
        (record sampleService (Call.FindOrCreateUser "mgmt" "a@x.io" true))
        "mgmt" "a@x.io").1
      = .error "failed to search user: 500 Internal Server Error - try later" ∧
    (FindOrCreateUser sampleClock searchFailsWorld sampleService "mgmt" "a@x.io" true).1
      = .ok { UserID := "auth0|new", Email := "a@x.io", EmailVerified := true } ∧
    (FindOrCreateUser sampleClock searchFailsWorld sampleService "mgmt" "a@x.io" true).2.trace
      = [Call.FindOrCreateUser "mgmt" "a@x.io" true,
         Call.Do (searchRequest sampleIssuer "mgmt" "a@x.io"),
         Call.Do (createRequest sampleIssuer "mgmt" "a@x.io" true
           "Migration-5-SecureRandomString123!")] :=
  ⟨rfl, rfl, rfl⟩

/-! ## The placeholder password -/

theorem generateRandomPassword_eq (clock : Nat → Time) (s : TokenExchangeService) :
    (generateRandomPassword clock s).1
      = "Migration-" ++ toString (Time.Unix (clock s.clockReads)) ++ "-"
          ++ "SecureRandomString123!" := rfl

/-- The password `createUser` sends is the one `generateRandomPassword`
returns at the clock reading of the call. -/
theorem createUser_trace (clock : Nat → Time) (w : World) (s : TokenExchangeService)
    (mgmtToken email : String) (emailVerified : Bool) :
    (createUser clock w s mgmtToken email emailVerified).2.trace
      = s.trace ++ [Call.Do (createRequest s.auth0Issuer mgmtToken email emailVerified
          (generateRandomPassword clock s).1)] ∧
    (createUser clock w s mgmtToken email emailVerified).2.clockReads = s.clockReads + 1 := by
  unfold createUser createRequest
  simp only [generateRandomPassword, timeNow]
  split
  · exact ⟨rfl, rfl⟩
  · split
    · exact ⟨rfl, rfl⟩
    · split <;> exact ⟨rfl, rfl⟩

/-- Two calls in the same Unix second get the same password, whatever else
differs between them. -/
theorem password_same_within_second (clock1 clock2 : Nat → Time)
    (s1 s2 : TokenExchangeService)
    (h : Time.Unix (clock1 s1.clockReads) = Time.Unix (clock2 s2.clockReads)) :
    (generateRandomPassword clock1 s1).1 = (generateRandomPassword clock2 s2).1 := by
  rw [generateRandomPassword_eq, generateRandomPassword_eq, h]

/-- C14. Two accounts are created 0.6 s apart within the Unix second 5, for
different emails. Both create requests carry the same password,
`Migration-5-SecureRandomString123!`: the constant text around the Unix second
of the call. -/
theorem passwords_equal_within_second :
    subSecondClock sampleService.clockReads = 5000000000 ∧
    subSecondClock laterService.clockReads = 5600000000 ∧
    (generateRandomPassword subSecondClock sampleService).1
      = "Migration-5-SecureRandomString123!" ∧
    (generateRandomPassword subSecondClock laterService).1
      = "Migration-5-SecureRandomString123!" ∧
    (createUser subSecondClock searchFailsWorld sampleService "mgmt" "a@x.io" true).2.trace
      = [Call.Do (createRequest sampleIssuer "mgmt" "a@x.io" true
          "Migration-5-SecureRandomString123!")] ∧
    (createUser subSecondClock searchFailsWorld laterService "mgmt" "b@x.io" false).2.trace
      = [Call.Do (createRequest sampleIssuer "mgmt" "b@x.io" false
          "Migration-5-SecureRandomString123!")] :=
  ⟨rfl, rfl, rfl, rfl, rfl, rfl⟩

/-! ## Key conversion -/

theorem SetBytes_foldl (bytes : List Nat) (acc : Nat) :
    bytes.foldl (fun acc b => acc * 256 + b) acc
      = acc * 256 ^ bytes.length + bigEndian bytes := by
  induction bytes generalizing acc with
  | nil => simp [bigEndian]
  | cons b rest ih =>
    simp only [List.foldl_cons, ih, bigEndian, List.length_cons]
    ring

theorem SetBytes_eq_bigEndian (bytes : List Nat) : SetBytes bytes = bigEndian bytes := by
  unfold SetBytes
  rw [SetBytes_foldl]
  simp

theorem wrapInt64_step (a : Int) (acc b : Nat) (h : a = wrapInt64 (acc : Int)) :
    wrapInt64 (wrapInt64 (a * 256) + (b : Int)) = wrapInt64 ((acc * 256 + b : Nat) : Int) := by
  rw [h]
  simp only [wrapInt64]
  push_cast
  omega

theorem exponentOfBytes_foldl (bytes : List Nat) (a : Int) (acc : Nat)
    (h : a = wrapInt64 (acc : Int)) :
    bytes.foldl (fun e b => wrapInt64 (wrapInt64 (e * 256) + (b : Int))) a
      = wrapInt64 ((bytes.foldl (fun acc b => acc * 256 + b) acc : Nat) : Int) := by
  induction bytes generalizing a acc with
  | nil => simpa using h
  | cons b rest ih =>
    simp only [List.foldl_cons]
    exact ih _ _ (wrapInt64_step a acc b h)

theorem exponentOfBytes_eq_wrap (bytes : List Nat) :
    exponentOfBytes bytes = wrapInt64 ((bigEndian bytes : Nat) : Int) := by
  unfold exponentOfBytes
  rw [exponentOfBytes_foldl bytes 0 0 (by unfold wrapInt64; rfl), ← SetBytes_eq_bigEndian]
  rfl

theorem wrapInt64_of_fits (x : Int) (hlo : -9223372036854775808 ≤ x)
    (hhi : x ≤ 9223372036854775807) : wrapInt64 x = x := by
  simp only [wrapInt64]
  omega

theorem wrapInt64_spec (x : Int) :
    -9223372036854775808 ≤ wrapInt64 x ∧ wrapInt64 x ≤ 9223372036854775807 ∧
    (wrapInt64 x - x) % 18446744073709551616 = 0 := by
  simp only [wrapInt64]
  omega

/-- The decoding loop succeeds exactly when every character is of the
alphabet or a line break and the characters of the alphabet, counted with
those already in the quantum, do not leave one alone at the end. -/
theorem base64Loop_ok_iff (l : List Char) :
    ∀ (pos : Nat) (quantum out : List Nat), quantum.length ≤ 3 →
      ((∃ bytes, base64Loop l pos quantum out = .ok bytes) ↔
        ((∀ c ∈ l, (base64urlValue c).isSome = true ∨ c = '\n' ∨ c = '\r') ∧
         (quantum.length + (l.filter (fun c => (base64urlValue c).isSome)).length) % 4 ≠ 1)) := by
  induction l with
  | nil =>
    intro pos quantum out hq
    rcases quantum with _ | ⟨a, _ | ⟨b, _ | ⟨c, _ | ⟨d, q⟩⟩⟩⟩
    · simp [base64Loop, base64Tail]
    · simp [base64Loop, base64Tail]
    · simp [base64Loop, base64Tail]
    · simp [base64Loop, base64Tail]
    · simp only [List.length_cons] at hq
      omega
  | cons ch rest ih =>
    intro pos quantum out hq
    cases hv : base64urlValue ch with
    | some v =>
      rcases quantum with _ | ⟨a, _ | ⟨b, _ | ⟨c, _ | ⟨d, q⟩⟩⟩⟩
      · simp only [base64Loop, hv, List.nil_append]
        rw [ih _ _ _ (by simp)]
        simp only [List.mem_cons, forall_eq_or_imp, hv, Option.isSome_some, true_or, true_and,
          List.filter_cons, if_true, List.length_cons, List.length_nil, and_congr_right_iff]
        intro _
        omega
      · simp only [base64Loop, hv, List.cons_append, List.nil_append]
        rw [ih _ _ _ (by simp)]
        simp only [List.mem_cons, forall_eq_or_imp, hv, Option.isSome_some, true_or, true_and,
          List.filter_cons, if_true, List.length_cons, List.length_nil, and_congr_right_iff]
        intro _
        omega
      · simp only [base64Loop, hv, List.cons_append, List.nil_append]
        rw [ih _ _ _ (by simp)]
        simp only [List.mem_cons, forall_eq_or_imp, hv, Option.isSome_some, true_or, true_and,
          List.filter_cons, if_true, List.length_cons, List.length_nil, and_congr_right_iff]
        intro _
        omega
      · simp only [base64Loop, hv]
        rw [ih _ _ _ (by simp)]
        simp only [List.mem_cons, forall_eq_or_imp, hv, Option.isSome_some, true_or, true_and,
          List.filter_cons, if_true, List.length_cons, List.length_nil, and_congr_right_iff]
        intro _
        omega
      · simp only [List.length_cons] at hq
        omega
    | none =>
      by_cases hnl : ch = '\n' ∨ ch = '\r'
      · simp only [base64Loop, hv, hnl, if_true]
        rw [ih _ _ _ hq]
        simp [hv, List.filter_cons, hnl]
      · simp only [base64Loop, hv, hnl, if_false]
        simp [hv, hnl]

theorem DecodeString_ok_of_raw (s : String) (h : isRawBase64URL s) :
    ∃ bytes, DecodeString s = .ok bytes := by
  unfold DecodeString
  rw [base64Loop_ok_iff s.toList 0 [] [] (by simp)]
  obtain ⟨hall, hlen⟩ := h
  refine ⟨fun c hc => Or.inl (hall c hc), ?_⟩
  have hf : s.toList.filter (fun c => (base64urlValue c).isSome) = s.toList := by
    rw [List.filter_eq_self]
    exact hall
  rw [hf]
  simpa using hlen

/-- C15. When `N` and `E` decode, `convertKey` returns the key whose modulus
is the big-endian unsigned integer of the bytes of `N` and whose exponent is
that of the bytes of `E` reduced to a signed 64-bit integer modulo 2^64, hence
that integer itself when it fits; `AQAB` gives 65537 and a nine-byte exponent
wraps. It returns an error exactly when `N` or `E` fails to decode, which
unpadded base64url text never does. The fields
`Kty`, `Kid`, `Use` and `X5c` play no part, and an empty `E` gives exponent 0
without an error. -/
theorem convertKey_big_endian (key : JSONWebKey) :
    (∀ nBytes eBytes, DecodeString key.N = .ok nBytes → DecodeString key.E = .ok eBytes →
      convertKey key = .ok { N := bigEndian nBytes, E := exponentOfBytes eBytes } ∧
      exponentOfBytes eBytes = wrapInt64 ((bigEndian eBytes : Nat) : Int) ∧
      -9223372036854775808 ≤ exponentOfBytes eBytes ∧
      exponentOfBytes eBytes ≤ 9223372036854775807 ∧
      (exponentOfBytes eBytes - ((bigEndian eBytes : Nat) : Int)) % 18446744073709551616 = 0 ∧
      (bigEndian eBytes ≤ 9223372036854775807 →
        exponentOfBytes eBytes = ((bigEndian eBytes : Nat) : Int))) ∧
    ((∃ e, convertKey key = .error e) ↔
      ((∃ e, DecodeString key.N = .error e) ∨ ∃ e, DecodeString key.E = .error e)) ∧
    (isRawBase64URL key.N → isRawBase64URL key.E → ∃ pk, convertKey key = .ok pk) ∧
    (∀ kty kid use x5c,
      convertKey { key with Kty := kty, Kid := kid, Use := use, X5c := x5c }
        = convertKey key) ∧
    (∀ nBytes, DecodeString key.N = .ok nBytes → key.E = "" →
      convertKey key = .ok { N := bigEndian nBytes, E := 0 }) ∧
    (DecodeString "AQAB" = .ok [1, 0, 1] ∧ exponentOfBytes [1, 0, 1] = 65537) ∧
    (DecodeString "AQAAAAAAAAAB" = .ok [1, 0, 0, 0, 0, 0, 0, 0, 1] ∧
      bigEndian [1, 0, 0, 0, 0, 0, 0, 0, 1] = 18446744073709551617 ∧
      exponentOfBytes [1, 0, 0, 0, 0, 0, 0, 0, 1] = 1) := by
  refine ⟨?_, ?_, ?_, ?_, ?_, ⟨rfl, rfl⟩, ⟨rfl, rfl, rfl⟩⟩
  · intro nBytes eBytes hn he
    have hw := exponentOfBytes_eq_wrap eBytes
    obtain ⟨hlo, hhi, hmod⟩ := wrapInt64_spec ((bigEndian eBytes : Nat) : Int)
    refine ⟨?_, hw, ?_, ?_, ?_, ?_⟩
    · unfold convertKey
      rw [hn, he]
      dsimp only
      rw [SetBytes_eq_bigEndian]
    · rw [hw]; exact hlo
    · rw [hw]; exact hhi
    · rw [hw]; exact hmod
    · intro hfit
      rw [hw]
      apply wrapInt64_of_fits
      · omega
      · exact_mod_cast hfit
  · unfold convertKey
    cases hn : DecodeString key.N with
    | error e => simp
    | ok nBytes =>
      cases he : DecodeString key.E with
      | error e => simp
      | ok eBytes => simp
  · intro hN hE
    obtain ⟨nBytes, hn⟩ := DecodeString_ok_of_raw key.N hN
    obtain ⟨eBytes, he⟩ := DecodeString_ok_of_raw key.E hE
    unfold convertKey
    rw [hn, he]
    exact ⟨_, rfl⟩
  · intro kty kid use x5c
    rfl
  · intro nBytes hn hE
    unfold convertKey
    rw [hn, hE]
    dsimp only
    rw [SetBytes_eq_bigEndian]
    rfl

/-! ## The invariant of the ledger -/

theorem ExchangeToken_error_frame {clock : Nat → Time} {w : World}
    {s : TokenExchangeService} {passageToken : String} {e : String}
    (h : (ExchangeToken clock w s passageToken).1 = .error e) :
    SameLedger s (ExchangeToken clock w s passageToken).2 := by
  unfold ExchangeToken at h ⊢
  have hl := lookupStep_sameLedger w s passageToken
  split
  · next e1 s1 heq => rw [heq] at hl; exact hl
  · next p s1 heq =>
    rw [heq] at hl h
    dsimp only at h
    exact hl.trans (updateStep_error_sameLedger h)

theorem MigrationCache.countKey_le_one (m : MigrationCache) (key : String)
    (h : (m.map Prod.fst).Nodup) : m.countKey key ≤ 1 := by
  induction m with
  | nil => simp [MigrationCache.countKey]
  | cons e rest ih =>
    obtain ⟨k, v⟩ := e
    simp only [List.map_cons, List.nodup_cons] at h
    obtain ⟨hnot, hrest⟩ := h
    have ih2 := ih hrest
    unfold MigrationCache.countKey at ih2 ⊢
    by_cases hk : k = key
    · subst hk
      have hnone : MigrationCache.lookup rest k = none :=
        (MigrationCache.lookup_eq_none_iff rest k).mpr hnot
      have hzero := (MigrationCache.countKey_eq_zero rest k).mpr hnone
      unfold MigrationCache.countKey at hzero
      simp [hzero]
    · simp [hk, ih2]

/-- One call of `ExchangeToken` keeps the invariant of the ledger, and every
record present before is present after, changed at most in `LastExchange`. -/
theorem ExchangeToken_invariant (clock : Nat → Time) (hmono : Monotone clock) (w : World)
    (s : TokenExchangeService) (passageToken : String) (hinv : LedgerInvariant clock s) :
    LedgerInvariant clock (ExchangeToken clock w s passageToken).2 ∧
    ∀ k rec, s.migrationCache.lookup k = some rec →
      ∃ rec2, (ExchangeToken clock w s passageToken).2.migrationCache.lookup k = some rec2 ∧
        rec2 = { rec with LastExchange := rec2.LastExchange } := by
  obtain ⟨hnd, hrec⟩ := hinv
  cases hres : (ExchangeToken clock w s passageToken).1 with
  | error e =>
    obtain ⟨hc, hreads⟩ := ExchangeToken_error_frame hres
    refine ⟨⟨by rw [hc]; exact hnd, ?_⟩, ?_⟩
    · intro k rec hk
      rw [hc] at hk
      obtain ⟨h1, h2, h3⟩ := hrec k rec hk
      exact ⟨h1, h2, fun j hj => h3 j (le_trans hreads hj)⟩
    · intro k rec hk
      exact ⟨rec, by rw [hc]; exact hk, rfl⟩
  | ok r =>
    have e1 : ExchangeToken clock w s passageToken
        = (.ok r, (ExchangeToken clock w s passageToken).2) := Prod.ext hres rfl
    obtain ⟨user, a, n, -, -, hn, -, hcase⟩ := ExchangeToken_ok e1
    rcases hcase with ⟨hnone, hc, hreads⟩ | ⟨m, hm, hc, hreads⟩
    · refine ⟨⟨by rw [hc]; exact MigrationCache.keys_store_nodup _ _ _ hnd, ?_⟩, ?_⟩
      · intro k rec hk
        rw [hc] at hk
        by_cases hku : k = user.ID
        · subst hku
          rw [MigrationCache.lookup_store_self] at hk
          simp only [Option.some.injEq] at hk
          subst hk
          refine ⟨rfl, hmono (Nat.le_succ n), ?_⟩
          intro j hj
          apply hmono
          omega
        · rw [MigrationCache.lookup_store_ne _ _ _ _ hku] at hk
          obtain ⟨h1, h2, h3⟩ := hrec k rec hk
          exact ⟨h1, h2, fun j hj => h3 j (by omega)⟩
      · intro k rec hk
        have hku : k ≠ user.ID := by
          intro h
          rw [h, hnone] at hk
          cases hk
        exact ⟨rec, by rw [hc, MigrationCache.lookup_store_ne _ _ _ _ hku]; exact hk, rfl⟩
    · obtain ⟨hm1, hm2, hm3⟩ := hrec user.ID m hm
      refine ⟨⟨by rw [hc]; exact MigrationCache.keys_store_nodup _ _ _ hnd, ?_⟩, ?_⟩
      · intro k rec hk
        rw [hc] at hk
        by_cases hku : k = user.ID
        · subst hku
          rw [MigrationCache.lookup_store_self] at hk
          simp only [Option.some.injEq] at hk
          subst hk
          exact ⟨hm1, hm3 n hn, fun j hj => hm3 j (by omega)⟩
        · rw [MigrationCache.lookup_store_ne _ _ _ _ hku] at hk
          obtain ⟨h1, h2, h3⟩ := hrec k rec hk
          exact ⟨h1, h2, fun j hj => h3 j (by omega)⟩
      · intro k rec hk
        by_cases hku : k = user.ID
        · subst hku
          rw [hm] at hk
          simp only [Option.some.injEq] at hk
          subst hk
          exact ⟨_, by rw [hc, MigrationCache.lookup_store_self], rfl⟩
        · exact ⟨rec, by rw [hc, MigrationCache.lookup_store_ne _ _ _ _ hku]; exact hk, rfl⟩

theorem runExchanges_invariant (clock : Nat → Time) (hmono : Monotone clock)
    (calls : List (World × String)) :
    ∀ s : TokenExchangeService, LedgerInvariant clock s →
      LedgerInvariant clock (runExchanges clock calls s) ∧
      ∀ k rec, s.migrationCache.lookup k = some rec →
        ∃ rec2, (runExchanges clock calls s).migrationCache.lookup k = some rec2 ∧
          rec2 = { rec with LastExchange := rec2.LastExchange } := by
  induction calls with
  | nil =>
    intro s hinv
    exact ⟨hinv, fun k rec hk => ⟨rec, hk, rfl⟩⟩
  | cons c rest ih =>
    intro s hinv
    obtain ⟨w, passageToken⟩ := c
    obtain ⟨hinv1, hkeep1⟩ := ExchangeToken_invariant clock hmono w s passageToken hinv
    obtain ⟨hinv2, hkeep2⟩ := ih _ hinv1
    refine ⟨hinv2, ?_⟩
    intro k rec hk
    obtain ⟨rec1, hk1, heq1⟩ := hkeep1 k rec hk
    obtain ⟨rec2, hk2, heq2⟩ := hkeep2 k rec1 hk1
    refine ⟨rec2, hk2, ?_⟩
    rw [heq2, heq1]

theorem runExchanges_append (clock : Nat → Time) (calls1 calls2 : List (World × String))
    (s : TokenExchangeService) :
    runExchanges clock (calls1 ++ calls2) s
      = runExchanges clock calls2 (runExchanges clock calls1 s) := by
  induction calls1 generalizing s with
  | nil => rfl
  | cons c rest ih =>
    obtain ⟨w, passageToken⟩ := c
    show runExchanges clock (rest ++ calls2) (ExchangeToken clock w s passageToken).2 = _
    rw [ih]
    rfl

/-- C12. Under a non-decreasing clock, in the ledger reached from the empty
one by any sequence of calls of `ExchangeToken`, successful or not, every
record stored under a key has that key as `PassageUserID` and has
`MigratedAt ≤ LastExchange`, and no key holds two records; and a record
present after some calls is still present after any further calls, changed at
most in `LastExchange`. -/
theorem ledger_invariant_reachable (clock : Nat → Time) (hmono : Monotone clock)
    (issuer : Auth0Issuer) (calls further : List (World × String)) :
    (∀ k rec, (runExchanges clock calls (NewTokenExchangeService issuer)).migrationCache.lookup k
        = some rec → rec.PassageUserID = k ∧ rec.MigratedAt ≤ rec.LastExchange) ∧
    (∀ k, (runExchanges clock calls (NewTokenExchangeService issuer)).migrationCache.countKey k
        ≤ 1) ∧
    (∀ k rec, (runExchanges clock calls (NewTokenExchangeService issuer)).migrationCache.lookup k
        = some rec →
      ∃ rec2, (runExchanges clock (calls ++ further)
          (NewTokenExchangeService issuer)).migrationCache.lookup k = some rec2 ∧
        rec2 = { rec with LastExchange := rec2.LastExchange }) := by
  have hinit : LedgerInvariant clock (NewTokenExchangeService issuer) := by
    refine ⟨by simp [NewTokenExchangeService], ?_⟩
    intro k rec hk
    simp [NewTokenExchangeService, MigrationCache.lookup] at hk
  obtain ⟨⟨hnd, hrec⟩, -⟩ := runExchanges_invariant clock hmono calls _ hinit
  refine ⟨fun k rec hk => ⟨(hrec k rec hk).1, (hrec k rec hk).2.1⟩,
    fun k => MigrationCache.countKey_le_one _ k hnd, ?_⟩
  rw [runExchanges_append]
  exact (runExchanges_invariant clock hmono further _ ⟨hnd, hrec⟩).2

theorem sampleClock_monotone : Monotone sampleClock := by
  intro a b hab
  unfold sampleClock
  exact Nat.mul_le_mul_left _ (Nat.add_le_add_right hab 5)

/-- Witness of C12: after a first exchange for `u-1`, a failed exchange and a
second exchange for `u-1`, the one record has `MigratedAt` 5 s and
`LastExchange` 7 s under its own key. -/
theorem ledger_invariant_reachable_witness :
    (runExchanges sampleClock sampleCalls (NewTokenExchangeService sampleIssuer)).migrationCache
      = [("u-1", { PassageUserID := "u-1", Auth0UserID := "auth0|1", Email := "a@x.io",
                   MigratedAt := 5000000000, LastExchange := 7000000000 })] ∧
    (runExchanges sampleClock sampleCalls
      (NewTokenExchangeService sampleIssuer)).migrationCache.countKey "u-1" ≤ 1 :=
  ⟨rfl, (ledger_invariant_reachable sampleClock sampleClock_monotone sampleIssuer
    sampleCalls []).2.1 "u-1"⟩

/-! ## The identifier of an exchange -/

theorem GetManagementToken_trace (w : World) (s : TokenExchangeService) :
    (GetManagementToken w s).2
      = record (record s Call.GetManagementToken) (Call.Do (tokenRequest s.auth0Issuer)) := by
  unfold GetManagementToken requestToken tokenRequest
  dsimp only
  split
  · next e s1 heq =>
    split at heq
    · simp only [Prod.mk.injEq] at heq
      rw [← heq.2]
      rfl
    · split at heq
      · simp only [Prod.mk.injEq] at heq
        rw [← heq.2]
        rfl
      · split at heq
        · simp only [Prod.mk.injEq] at heq
          rw [← heq.2]
          rfl
        · simp only [Prod.mk.injEq] at heq
          rw [← heq.2]
          rfl
  · next t s1 heq =>
    split at heq
    · simp only [Prod.mk.injEq] at heq
      rw [← heq.2]
      rfl
    · split at heq
      · simp only [Prod.mk.injEq] at heq
        rw [← heq.2]
        rfl
      · split at heq
        · simp only [Prod.mk.injEq] at heq
          rw [← heq.2]
          rfl
        · simp only [Prod.mk.injEq] at heq
          rw [← heq.2]
          rfl

/-- The calls `FindOrCreateUser` adds to the trace: its own entry, the search
request and, unless the search returned an account, the create request. -/
theorem FindOrCreateUser_trace (clock : Nat → Time) (w : World) (s : TokenExchangeService)
    (mgmtToken email : String) (emailVerified : Bool) :
    ∃ requests, (FindOrCreateUser clock w s mgmtToken email emailVerified).2.trace
        = s.trace ++ Call.FindOrCreateUser mgmtToken email emailVerified :: requests ∧
      ∀ c ∈ requests, ∃ req, c = Call.Do req := by
  by_cases h : ∃ user, (findUserByEmail w
      (record s (Call.FindOrCreateUser mgmtToken email emailVerified)) mgmtToken email).1
        = .ok (some user)
  · obtain ⟨user, hu⟩ := h
    obtain ⟨-, htr, -⟩ := FindOrCreateUser_found clock w s mgmtToken email emailVerified user hu
    refine ⟨[Call.Do (searchRequest s.auth0Issuer mgmtToken email)], htr, ?_⟩
    intro c hc
    simp only [List.mem_singleton] at hc
    exact ⟨_, hc⟩
  · have h2 : ∀ user, (findUserByEmail w
        (record s (Call.FindOrCreateUser mgmtToken email emailVerified)) mgmtToken email).1
          ≠ .ok (some user) := fun user hu => h ⟨user, hu⟩
    rw [FindOrCreateUser_not_found clock w s mgmtToken email emailVerified h2]
    obtain ⟨htr, -⟩ := createUser_trace clock w
      (record (record s (Call.FindOrCreateUser mgmtToken email emailVerified))
        (Call.Do (searchRequest s.auth0Issuer mgmtToken email))) mgmtToken email emailVerified
    refine ⟨[Call.Do (searchRequest s.auth0Issuer mgmtToken email),
      Call.Do (createRequest s.auth0Issuer mgmtToken email emailVerified
        (generateRandomPassword clock
          (record (record s (Call.FindOrCreateUser mgmtToken email emailVerified))
            (Call.Do (searchRequest s.auth0Issuer mgmtToken email)))).1)], ?_, ?_⟩
    · rw [htr]
      simp [record]
    · intro c hc
      simp only [List.mem_cons, List.mem_singleton, List.not_mem_nil, or_false] at hc
      rcases hc with hc | hc
      · exact ⟨_, hc⟩
      · exact ⟨_, hc⟩

theorem updateCache_trace (clock : Nat → Time) (s : TokenExchangeService) (p : Pending)
    (auth0User : Auth0User) :
    (ExchangeToken.updateCache clock s p auth0User).trace = s.trace := by
  unfold ExchangeToken.updateCache
  split <;> rfl

/-- The calls the second half of `ExchangeToken` adds to the trace. -/
theorem updateStep_trace (clock : Nat → Time) (w : World) (s : TokenExchangeService)
    (p : Pending) :
    ((∃ e, (GetManagementToken w s).1 = .error e) ∧
      (ExchangeToken.updateStep clock w s p).2.trace
        = s.trace ++ [Call.GetManagementToken, Call.Do (tokenRequest s.auth0Issuer)]) ∨
    (∃ mgmtToken requests, (GetManagementToken w s).1 = .ok mgmtToken ∧
      (ExchangeToken.updateStep clock w s p).2.trace
        = s.trace ++ [Call.GetManagementToken, Call.Do (tokenRequest s.auth0Issuer),
            Call.FindOrCreateUser mgmtToken p.identifier p.migratedUser.EmailVerified]
          ++ requests ∧
      ∀ c ∈ requests, ∃ req, c = Call.Do req) := by
  have hg := GetManagementToken_trace w s
  unfold ExchangeToken.updateStep
  cases hres : GetManagementToken w s with
  | mk res s1 =>
    rw [hres] at hg
    simp only at hg
    subst hg
    cases res with
    | error e =>
      left
      exact ⟨⟨e, rfl⟩, by simp [record]⟩
    | ok mgmtToken =>
      right
      obtain ⟨requests, htr, hdo⟩ := FindOrCreateUser_trace clock w
        (record (record s Call.GetManagementToken) (Call.Do (tokenRequest s.auth0Issuer)))
        mgmtToken p.identifier p.migratedUser.EmailVerified
      refine ⟨mgmtToken, requests, rfl, ?_, hdo⟩
      dsimp only
      cases hf : FindOrCreateUser clock w
          (record (record s Call.GetManagementToken) (Call.Do (tokenRequest s.auth0Issuer)))
          mgmtToken p.identifier p.migratedUser.EmailVerified with
      | mk res2 s2 =>
        rw [hf] at htr
        simp only at htr
        cases res2 with
        | error e =>
          dsimp only
          rw [htr]
          simp [record]
        | ok auth0User =>
          dsimp only
          rw [updateCache_trace, htr]
          simp [record]

theorem ExchangeToken_eq_updateStep {w : World} {s : TokenExchangeService}
    {passageToken : String} {u : MigratedPassageUser} (clock : Nat → Time)
    (hv : (ValidateToken w s passageToken).1 = .ok u)
    (hsome : ¬ (u.Email = "" ∧ u.Phone = "")) :
    ExchangeToken clock w s passageToken
      = ExchangeToken.updateStep clock w (ValidateToken w s passageToken).2
          { migratedUser := u, identifier := (if u.Email = "" then u.Phone else u.Email),
            migration := (ValidateToken w s passageToken).2.migrationCache.lookup u.ID,
            isNewMigration :=
              ((ValidateToken w s passageToken).2.migrationCache.lookup u.ID).isNone } := by
  unfold ExchangeToken ExchangeToken.lookupStep
  cases hvt : ValidateToken w s passageToken with
  | mk res s1 =>
    rw [hvt] at hv
    simp only at hv
    subst hv
    simp only [hsome, if_false]

/-- C13. For a validated legacy identity with an email or a phone, the
identifier is the email when it is not empty and the phone otherwise: every
call of `FindOrCreateUser` this exchange makes carries it (and there is one as
soon as the management token was obtained), a successful exchange returns it
as `Email`, and a record inserted for a new legacy id stores it as `Email`. -/
theorem exchange_identifier_email_else_phone (clock : Nat → Time) (w : World)
    (s : TokenExchangeService) (passageToken : String) (u : MigratedPassageUser)
    (hv : (ValidateToken w s passageToken).1 = .ok u)
    (hsome : ¬ (u.Email = "" ∧ u.Phone = "")) :
    (∃ calls, (ExchangeToken clock w s passageToken).2.trace = s.trace ++ calls ∧
      (∀ m e v, Call.FindOrCreateUser m e v ∈ calls →
        e = (if u.Email = "" then u.Phone else u.Email) ∧ v = u.EmailVerified) ∧
      (∀ m, (GetManagementToken w (ValidateToken w s passageToken).2).1 = .ok m →
        Call.FindOrCreateUser m (if u.Email = "" then u.Phone else u.Email) u.EmailVerified
          ∈ calls)) ∧
    (∀ r, (ExchangeToken clock w s passageToken).1 = .ok r →
      r.Email = (if u.Email = "" then u.Phone else u.Email) ∧
      (s.migrationCache.lookup u.ID = none →
        ∃ rec, (ExchangeToken clock w s passageToken).2.migrationCache.lookup u.ID = some rec ∧
          rec.Email = (if u.Email = "" then u.Phone else u.Email))) := by
  constructor
  · obtain ⟨userID, hvtr⟩ := ValidateToken_ok_trace hv
    rw [ExchangeToken_eq_updateStep clock hv hsome]
    rcases updateStep_trace clock w (ValidateToken w s passageToken).2
        { migratedUser := u, identifier := (if u.Email = "" then u.Phone else u.Email),
          migration := (ValidateToken w s passageToken).2.migrationCache.lookup u.ID,
          isNewMigration :=
            ((ValidateToken w s passageToken).2.migrationCache.lookup u.ID).isNone } with
      ⟨⟨e, herr⟩, htr⟩ | ⟨mgmtToken, requests, hok, htr, hdo⟩
    · refine ⟨_, by rw [htr, hvtr, List.append_assoc], ?_, ?_⟩
      · intro m e2 v hmem
        simp at hmem
      · intro m hm
        rw [herr] at hm
        cases hm
    · refine ⟨_, by rw [htr, hvtr, List.append_assoc, List.append_assoc], ?_, ?_⟩
      · intro m e2 v hmem
        simp only [List.cons_append, List.nil_append, List.mem_cons, reduceCtorEq, false_or,
          Call.FindOrCreateUser.injEq] at hmem
        rcases hmem with ⟨-, he, hver⟩ | hmem
        · exact ⟨he, hver⟩
        · obtain ⟨req, hreq⟩ := hdo _ hmem
          cases hreq
      · intro m hm
        rw [hok] at hm
        simp only [Except.ok.injEq] at hm
        subst hm
        simp
  · intro r hres
    have e1 : ExchangeToken clock w s passageToken
        = (.ok r, (ExchangeToken clock w s passageToken).2) := Prod.ext hres rfl
    obtain ⟨user, a, n, hu, -, -, hr, hcase⟩ := ExchangeToken_ok e1
    rw [hv] at hu
    simp only [Except.ok.injEq] at hu
    subst hu
    refine ⟨by rw [hr], ?_⟩
    intro hnone
    rcases hcase with ⟨-, hc, -⟩ | ⟨m, hm, -, -⟩
    · exact ⟨_, by rw [hc, MigrationCache.lookup_store_self], rfl⟩
    · rw [hnone] at hm
      cases hm

/-- Witness of C13: a legacy identity with a phone and no email is provisioned
and recorded under its phone number. -/
theorem exchange_identifier_email_else_phone_witness :
    (ExchangeToken sampleClock phoneOnlyWorld sampleService "t7").1
      = .ok { Auth0UserID := "auth0|7", Email := "+15550100", AccessToken := "",
              IDToken := "", ExpiresIn := 0, IsNewMigration := true } ∧
    Call.FindOrCreateUser "mgmt" "+15550100" false
      ∈ (ExchangeToken sampleClock phoneOnlyWorld sampleService "t7").2.trace := by
  obtain ⟨⟨calls, htr, -, hcall⟩, -⟩ := exchange_identifier_email_else_phone sampleClock
    phoneOnlyWorld sampleService "t7"
    { ID := "u-7", Email := "", Phone := "+15550100", EmailVerified := false,
      PhoneVerified := true } rfl (by decide)
  refine ⟨rfl, ?_⟩
  rw [htr]
  exact List.mem_append_right _ (hcall "mgmt" rfl)

end Spec2Proof
